import Mathlib

/-!
Shallow embedding of the Activity-Engine course progress service
(`src/Activity-Engine/src/services/CourseProgressService.ts`) together with the
Prisma data model it uses, and proofs about the claims of the specification.

Conventions of the embedding:
* TypeScript objects become structures; `number` sequence fields become `Int`.
* JavaScript `Array.prototype.sort` with comparator `(a, b) => a.sequence - b.sequence`
  is a stable ascending sort; it is modelled by `List.insertionSort` on the same
  key, which is also stable and ascending.
* JavaScript string truthiness (`s || null`, `if (s)`) is modelled explicitly:
  the empty string is falsy, see `strOrNull` and `jsTruthy`.
* The mutation performed by `extractAllIds` (in-place sorting of the shared
  section / section-item arrays, while only a shallow copy of the top-level
  module array is sorted) is modelled by returning the post-mutation curriculum
  alongside the computed ids.
* The database is a `Store` record; Prisma reads are lookups and writes are
  functional updates.  `createMany` with `skipDuplicates` is an
  insert-if-absent fold; `upsert` is create-or-update.
* The `CourseProgressRepository` class is not part of the sources; its methods
  are modelled from the spec's storage contract (section 6) where noted.
-/

namespace ActivityEngine

/-- Progress status, Prisma `ProgressEnum`. -/
inductive ProgressEnum where
  | IN_PROGRESS
  | INCOMPLETE
  | COMPLETE
deriving DecidableEq

/-- Leaf entity of the curriculum tree (TS interface `SectionItem`). -/
structure SectionItem where
  sectionItemId : String
  sequence : Int
deriving DecidableEq

/-- Section of a module (TS interface `Section`). -/
structure Section where
  sectionId : String
  sequence : Int
  sectionItems : List SectionItem
deriving DecidableEq

/-- Module of a course (TS interface `Module`). -/
structure Module where
  moduleId : String
  sequence : Int
  sections : List Section
deriving DecidableEq

/-- Input of the initializer (TS interface `CourseProgressData`). -/
structure CourseProgressData where
  courseInstanceId : String
  studentIds : List String
  modules : List Module
deriving DecidableEq

/-- Output of `extractAllIds` (TS interface `SeperatedIds`, spelling kept). -/
structure SeperatedIds where
  modules : List String
  sections : List String
  sectionItems : List String
  firstModule : Option String
  firstSection : Option String
  firstSectionItem : Option String
deriving DecidableEq

/-- Row of the `ModuleNext` adjacency table.  `sectionId` (the module's first
section) is computed by `getNextData` with `|| null`, hence an `Option`. -/
structure ModuleNextRec where
  moduleId : String
  nextModuleId : Option String
  courseInstanceId : String
  sectionId : Option String
deriving DecidableEq

/-- Row of the `SectionNext` adjacency table.  `sectionItemId` is the section's
first item, computed with `|| null`. -/
structure SectionNextRec where
  sectionId : String
  nextSectionId : Option String
  moduleId : String
  sectionItemId : Option String
deriving DecidableEq

/-- Row of the `SectionItemNext` adjacency table. -/
structure SectionItemNextRec where
  sectionItemId : String
  nextSectionItemId : Option String
  sectionId : String
deriving DecidableEq

/-- Output of `getNextData` (TS interface `NextData`). -/
structure NextData where
  moduleNextData : List ModuleNextRec
  sectionNextData : List SectionNextRec
  sectionItemNextData : List SectionItemNextRec
deriving DecidableEq

/-- JavaScript `s || null` on a string value: the empty string is falsy. -/
def strOrNull (s : String) : Option String :=
  if s = "" then none else some s

/-- JavaScript truthiness of a nullable string (`x || null`, `if (x)`):
`null` and the empty string are falsy. -/
def jsTruthy (o : Option String) : Option String :=
  o.bind strOrNull

/-- Stable ascending sort of section items by `sequence`
(JS `sec.sectionItems.sort((a, b) => a.sequence - b.sequence)`). -/
def sortSectionItems (l : List SectionItem) : List SectionItem :=
  List.insertionSort (fun a b => a.sequence ≤ b.sequence) l

/-- Stable ascending sort of sections by `sequence`. -/
def sortSections (l : List Section) : List Section :=
  List.insertionSort (fun a b => a.sequence ≤ b.sequence) l

/-- Stable ascending sort of modules by `sequence`. -/
def sortModules (l : List Module) : List Module :=
  List.insertionSort (fun a b => a.sequence ≤ b.sequence) l

/-- Effect of `extractAllIds` step 3 on one section object: its
`sectionItems` array is sorted in place. -/
def sortSectionInner (s : Section) : Section :=
  { s with sectionItems := sortSectionItems s.sectionItems }

/-- Effect of `extractAllIds` step 3 on one module object: its `sections`
array is sorted in place, and each section's items are sorted in place. -/
def sortModuleInner (m : Module) : Module :=
  { m with sections := sortSections (m.sections.map sortSectionInner) }

/-- `extractAllIds` of the source.  The first component is the returned
`SeperatedIds`; the second component is the curriculum as the caller sees it
afterwards: step 1 copies the `modules` array only shallowly, so sorting the
copy leaves the caller's top-level order unchanged, while step 3 sorts each
(shared) module's `sections` and each section's `sectionItems` in place. -/
def extractAllIds (courseProgressData : CourseProgressData) :
    SeperatedIds × CourseProgressData :=
  let mutatedModules := courseProgressData.modules.map sortModuleInner
  let post : CourseProgressData := { courseProgressData with modules := mutatedModules }
  let sortedModules := sortModules mutatedModules
  let modules := sortedModules.map (·.moduleId)
  let sections := sortedModules.flatMap (fun m => m.sections.map (·.sectionId))
  let sectionItems := sortedModules.flatMap
    (fun m => m.sections.flatMap (fun s => s.sectionItems.map (·.sectionItemId)))
  match sortedModules.find? (fun m => m.sequence == 1) with
  | none =>
      ({ modules, sections, sectionItems,
         firstModule := none, firstSection := none, firstSectionItem := none }, post)
  | some firstModule =>
      let firstSection := firstModule.sections.find? (fun s => s.sequence == 1)
      ({ modules, sections, sectionItems,
         firstModule := some firstModule.moduleId,
         firstSection := jsTruthy (firstSection.map (·.sectionId)),
         firstSectionItem := jsTruthy
           ((firstSection.bind
             (fun s => s.sectionItems.find? (fun it => it.sequence == 1))).map
            (·.sectionItemId)) }, post)

/-- Module-level loop of `getNextData`: `modules.map((module, index) => ...)`
with `nextModuleId = modules[index + 1]?.moduleId || null` and
`sectionId = module.sections.find(s => s.sequence === 1)?.sectionId || null`. -/
def moduleNextOf (courseInstanceId : String) : List Module → List ModuleNextRec
  | [] => []
  | m :: rest =>
      { moduleId := m.moduleId,
        nextModuleId := jsTruthy (rest.head?.map (·.moduleId)),
        courseInstanceId,
        sectionId := jsTruthy
          ((m.sections.find? (fun s => s.sequence == 1)).map (·.sectionId)) } ::
      moduleNextOf courseInstanceId rest

/-- Section-level loop of `getNextData` for one module's `sections` array. -/
def sectionNextOf (moduleId : String) : List Section → List SectionNextRec
  | [] => []
  | s :: rest =>
      { sectionId := s.sectionId,
        nextSectionId := jsTruthy (rest.head?.map (·.sectionId)),
        moduleId,
        sectionItemId := jsTruthy
          ((s.sectionItems.find? (fun it => it.sequence == 1)).map (·.sectionItemId)) } ::
      sectionNextOf moduleId rest

/-- Item-level loop of `getNextData` for one section's `sectionItems` array. -/
def sectionItemNextOf (sectionId : String) : List SectionItem → List SectionItemNextRec
  | [] => []
  | it :: rest =>
      { sectionItemId := it.sectionItemId,
        nextSectionItemId := jsTruthy (rest.head?.map (·.sectionItemId)),
        sectionId } ::
      sectionItemNextOf sectionId rest

/-- `getNextData` of the source: builds the three adjacency tables by walking
the (possibly unsorted) arrays of `courseData` in array order. -/
def getNextData (courseData : CourseProgressData) : NextData :=
  { moduleNextData := moduleNextOf courseData.courseInstanceId courseData.modules,
    sectionNextData :=
      courseData.modules.flatMap (fun m => sectionNextOf m.moduleId m.sections),
    sectionItemNextData :=
      courseData.modules.flatMap
        (fun m => m.sections.flatMap (fun s => sectionItemNextOf s.sectionId s.sectionItems)) }

/-- Transactional store backing the service: the three adjacency tables and
the per-student progress tables of the Prisma schema.  Progress tables are
keyed exactly as their primary keys:
`courseProgress (studentId) (courseInstanceId)`,
`moduleProgress (studentId) (moduleId) (courseInstanceId)`, and so on;
`totalProgress (studentId) (courseInstanceId)` is the numeric aggregate. -/
structure Store where
  moduleNext : List ModuleNextRec
  sectionNext : List SectionNextRec
  sectionItemNext : List SectionItemNextRec
  courseProgress : String → String → Option ProgressEnum
  moduleProgress : String → String → String → Option ProgressEnum
  sectionProgress : String → String → String → Option ProgressEnum
  itemProgress : String → String → String → Option ProgressEnum
  totalProgress : String → String → Option Int

/-- Store with no rows at all. -/
def emptyStore : Store :=
  { moduleNext := [], sectionNext := [], sectionItemNext := [],
    courseProgress := fun _ _ => none,
    moduleProgress := fun _ _ _ => none,
    sectionProgress := fun _ _ _ => none,
    itemProgress := fun _ _ _ => none,
    totalProgress := fun _ _ => none }

/-- Result rows reported by the cascade (TS interface `UpdatedEntities`). -/
structure UpdatedEntities where
  course : Option String
  modules : Option (List String)
  sections : Option (List String)
  sectionItems : Option (List String)
deriving DecidableEq

/-- Argument of `updateEntityListFields` (TS `Partial<UpdatedEntities>`);
call sites only ever pass the three list fields. -/
structure UpdatedEntitiesPartial where
  modules : Option (List String) := none
  sections : Option (List String) := none
  sectionItems : Option (List String) := none

/-- `updateEntityListFields` of the source: appends the given lists to the
accumulated ones (`[...(old || []), ...new]`); a JS array is always truthy, so
the branch is on presence, not emptiness. -/
def updateEntityListFields (updatedEntities : UpdatedEntities)
    (updates : UpdatedEntitiesPartial) : UpdatedEntities :=
  { course := updatedEntities.course,
    modules :=
      match updates.modules with
      | some l => some (updatedEntities.modules.getD [] ++ l)
      | none => updatedEntities.modules,
    sections :=
      match updates.sections with
      | some l => some (updatedEntities.sections.getD [] ++ l)
      | none => updatedEntities.sections,
    sectionItems :=
      match updates.sectionItems with
      | some l => some (updatedEntities.sectionItems.getD [] ++ l)
      | none => updatedEntities.sectionItems }

/-- Errors surfaced by the cascade: the gating business-rule violation and the
fatal missing-record errors, both thrown as exceptions in the source. -/
inductive CPError where
  | gatingViolation (sectionItemId previousItemId : String)
  | notFound (message : String)
deriving DecidableEq

/-- Modelled from the spec: `CourseProgressRepository.updateSectionItemProgress`
is the storage contract's `markProgress` at the section-item level, writing the
given status for the `(studentId, sectionItemId, courseInstanceId)` key. -/
def markItem (s : Store) (studentId sectionItemId courseInstanceId : String)
    (p : ProgressEnum) : Store :=
  { s with itemProgress := fun st id ci =>
      if st = studentId ∧ id = sectionItemId ∧ ci = courseInstanceId then some p
      else s.itemProgress st id ci }

/-- Modelled from the spec: `CourseProgressRepository.updateSectionProgress`
is `markProgress` at the section level. -/
def markSection (s : Store) (studentId sectionId courseInstanceId : String)
    (p : ProgressEnum) : Store :=
  { s with sectionProgress := fun st id ci =>
      if st = studentId ∧ id = sectionId ∧ ci = courseInstanceId then some p
      else s.sectionProgress st id ci }

/-- Modelled from the spec: `CourseProgressRepository.updateModuleProgress`
is `markProgress` at the module level. -/
def markModule (s : Store) (studentId moduleId courseInstanceId : String)
    (p : ProgressEnum) : Store :=
  { s with moduleProgress := fun st id ci =>
      if st = studentId ∧ id = moduleId ∧ ci = courseInstanceId then some p
      else s.moduleProgress st id ci }

/-- Modelled from the spec: `CourseProgressRepository.updateCourseProgress`
is `markProgress` at the course level. -/
def markCourse (s : Store) (studentId courseInstanceId : String)
    (p : ProgressEnum) : Store :=
  { s with courseProgress := fun st ci =>
      if st = studentId ∧ ci = courseInstanceId then some p
      else s.courseProgress st ci }

/-- Modelled from the spec: `CourseProgressRepository.getSectionItemDetails` is
the storage contract's `getAdjacency` at the section-item level, a lookup of
the `SectionItemNext` row keyed by `sectionItemId`. -/
def getSectionItemDetails (s : Store) (sectionItemId : String) :
    Option SectionItemNextRec :=
  s.sectionItemNext.find? (fun r => r.sectionItemId == sectionItemId)

/-- Modelled from the spec: `CourseProgressRepository.getSectionDetails` is
`getAdjacency` at the section level (`SectionNext` row by `sectionId`). -/
def getSectionDetails (s : Store) (sectionId : String) : Option SectionNextRec :=
  s.sectionNext.find? (fun r => r.sectionId == sectionId)

/-- Modelled from the spec: `CourseProgressRepository.getModuleDetails` is
`getAdjacency` at the module level (`ModuleNext` row by `moduleId`). -/
def getModuleDetails (s : Store) (moduleId : String) : Option ModuleNextRec :=
  s.moduleNext.find? (fun r => r.moduleId == moduleId)

/-- Gating check of `updateSectionItemProgress` (lines 203-229): look up the
predecessor by reversed adjacency (`findFirst` on `nextSectionItemId`); if one
exists and its stored progress row exists and is not COMPLETE, report its id
(the error case).  A missing predecessor progress row passes the gate, because
the source guards with `previousItemProgress && progress !== COMPLETE`. -/
def gatingPrev (s : Store) (studentId courseInstanceId sectionItemId : String) :
    Option String :=
  match s.sectionItemNext.find? (fun r => r.nextSectionItemId == some sectionItemId) with
  | some previousSectionItem =>
      match s.itemProgress studentId previousSectionItem.sectionItemId courseInstanceId with
      | some previousItemProgress =>
          if previousItemProgress ≠ ProgressEnum.COMPLETE then
            some previousSectionItem.sectionItemId
          else none
      | none => none
  | none => none

/-- `updateCourseProgress` of the source: mark the course COMPLETE, terminal. -/
def updateCourseProgress (s : Store) (courseInstanceId studentId : String) :
    Except (CPError × Store) (Store × UpdatedEntities) :=
  .ok (markCourse s studentId courseInstanceId ProgressEnum.COMPLETE,
    { course := some courseInstanceId, modules := none, sections := none,
      sectionItems := none })

/-- `updateModuleProgress` of the source.  Errors carry the store at throw
time: the cascade's writes are separate non-atomic round trips, so writes made
before a failure persist.  A `none` first-child pointer in an adjacency row is
modelled as the `NotFound` failure the subsequent null-keyed lookup produces. -/
def updateModuleProgress (s : Store) (courseInstanceId studentId moduleId : String)
    (cascade : Bool) : Except (CPError × Store) (Store × UpdatedEntities) :=
  let s1 := markModule s studentId moduleId courseInstanceId ProgressEnum.COMPLETE
  match getModuleDetails s1 moduleId with
  | none => .error (.notFound ("Module details not found for moduleId " ++ moduleId), s1)
  | some moduleDetails =>
    if cascade then
      match jsTruthy moduleDetails.nextModuleId with
      | some nextModuleId =>
        let s2 := markModule s1 studentId nextModuleId courseInstanceId ProgressEnum.IN_PROGRESS
        match getModuleDetails s2 nextModuleId with
        | none =>
            .error (.notFound ("Module details not found for moduleId " ++ nextModuleId), s2)
        | some nextModuleDetails =>
          match nextModuleDetails.sectionId with
          | none =>
              .error (.notFound ("Section details not found for sectionId null"), s2)
          | some nextModuleFirstSectionId =>
            let s3 := markSection s2 studentId nextModuleFirstSectionId courseInstanceId
              ProgressEnum.IN_PROGRESS
            match getSectionDetails s3 nextModuleFirstSectionId with
            | none =>
                .error (.notFound ("Section details not found for sectionId " ++
                  nextModuleFirstSectionId), s3)
            | some nextSectionDetails =>
              match nextSectionDetails.sectionItemId with
              | none =>
                  .error (.notFound ("Section item details not found for sectionItemId null"), s3)
              | some nextModuleFirstSectionItemId =>
                let s4 := markItem s3 studentId nextModuleFirstSectionItemId courseInstanceId
                  ProgressEnum.IN_PROGRESS
                .ok (s4,
                  { course := none,
                    modules := some [moduleId, nextModuleId],
                    sections := some [nextModuleFirstSectionId],
                    sectionItems := some [nextModuleFirstSectionItemId] })
      | none =>
        match updateCourseProgress s1 courseInstanceId studentId with
        | .error e => .error e
        | .ok (s2, updatedEntities) =>
            .ok (s2, updateEntityListFields updatedEntities { modules := some [moduleId] })
    else
      .ok (s1, { course := none, modules := some [moduleId], sections := none,
                 sectionItems := none })

/-- `updateSectionProgress` of the source.  Note the module-escalation branch
returns `{...updatedEntities, sections: [sectionId]}`: a spread that REPLACES
the `sections` list of the module-level result instead of appending to it. -/
def updateSectionProgress (s : Store) (courseInstanceId studentId sectionId : String)
    (cascade : Bool) : Except (CPError × Store) (Store × UpdatedEntities) :=
  let s1 := markSection s studentId sectionId courseInstanceId ProgressEnum.COMPLETE
  match getSectionDetails s1 sectionId with
  | none => .error (.notFound ("Section details not found for sectionId " ++ sectionId), s1)
  | some sectionDetails =>
    if cascade then
      match jsTruthy sectionDetails.nextSectionId with
      | some nextSectionId =>
        let s2 := markSection s1 studentId nextSectionId courseInstanceId
          ProgressEnum.IN_PROGRESS
        match getSectionDetails s2 nextSectionId with
        | none =>
            .error (.notFound ("Section details not found for sectionId " ++ nextSectionId), s2)
        | some nextSectionDetails =>
          match nextSectionDetails.sectionItemId with
          | none =>
              .error (.notFound ("Section item details not found for sectionItemId null"), s2)
          | some nextSectionFirstSectionItemId =>
            let s3 := markItem s2 studentId nextSectionFirstSectionItemId courseInstanceId
              ProgressEnum.IN_PROGRESS
            .ok (s3,
              { course := none, modules := none,
                sections := some [sectionId, nextSectionId],
                sectionItems := some [nextSectionFirstSectionItemId] })
      | none =>
        match updateModuleProgress s1 courseInstanceId studentId sectionDetails.moduleId cascade with
        | .error e => .error e
        | .ok (s2, updatedEntities) =>
            .ok (s2, { updatedEntities with sections := some [sectionId] })
    else
      .ok (s1, { course := none, modules := none, sections := some [sectionId],
                 sectionItems := none })

/-- One iteration of the `updateSectionItemProgress` loop: gating check, then
mark the item COMPLETE, then (if `cascade`) advance to the next item or
escalate to the section level. -/
def updateSectionItemProgressOne (s : Store)
    (courseInstanceId studentId sectionItemId : String) (cascade : Bool) :
    Except (CPError × Store) (Store × UpdatedEntities) :=
  match gatingPrev s studentId courseInstanceId sectionItemId with
  | some previousItemId => .error (.gatingViolation sectionItemId previousItemId, s)
  | none =>
    let s1 := markItem s studentId sectionItemId courseInstanceId ProgressEnum.COMPLETE
    if cascade then
      match getSectionItemDetails s1 sectionItemId with
      | none =>
          .error (.notFound ("Section item details not found for sectionItemId " ++
            sectionItemId), s1)
      | some sectionItemDetails =>
        match jsTruthy sectionItemDetails.nextSectionItemId with
        | some nextSectionItemId =>
          let s2 := markItem s1 studentId nextSectionItemId courseInstanceId
            ProgressEnum.IN_PROGRESS
          .ok (s2, { course := none, modules := none, sections := none,
                     sectionItems := some [sectionItemId, nextSectionItemId] })
        | none =>
          match updateSectionProgress s1 courseInstanceId studentId
              sectionItemDetails.sectionId cascade with
          | .error e => .error e
          | .ok (s2, updatedEntities) =>
              .ok (s2, updateEntityListFields updatedEntities
                { sectionItems := some [sectionItemId] })
    else
      .ok (s1, { course := none, modules := none, sections := none,
                 sectionItems := some [sectionItemId] })

/-- `updateSectionItemProgress` of the source (the public `CompleteSectionItems`
operation): processes the ids strictly in caller order, collecting one
`UpdatedEntities` per item; the first thrown error aborts the whole call. -/
def updateSectionItemProgress (s : Store) (courseInstanceId studentId : String)
    (sectionItemIds : List String) (cascade : Bool) :
    Except (CPError × Store) (Store × List UpdatedEntities) :=
  match sectionItemIds with
  | [] => .ok (s, [])
  | sectionItemId :: rest =>
    match updateSectionItemProgressOne s courseInstanceId studentId sectionItemId cascade with
    | .error e => .error e
    | .ok (s1, u) =>
      match updateSectionItemProgress s1 courseInstanceId studentId rest cascade with
      | .error e => .error e
      | .ok (s2, us) => .ok (s2, u :: us)

/-- Item rows prepared by the initializer's innermost loop (lines 679-694):
an item is IN_PROGRESS only when its section is IN_PROGRESS and the
`firstItemInitialized` flag is still false; the flag is set after the first
iteration unconditionally. -/
def itemRowsOf (sectionProgress : ProgressEnum) :
    Bool → List SectionItem → List (String × ProgressEnum)
  | _, [] => []
  | firstItemInitialized, item :: rest =>
      let itemProgress :=
        if sectionProgress = ProgressEnum.IN_PROGRESS ∧ ¬firstItemInitialized then
          ProgressEnum.IN_PROGRESS
        else ProgressEnum.INCOMPLETE
      (item.sectionItemId, itemProgress) :: itemRowsOf sectionProgress true rest

/-- Section and item rows prepared for one module (lines 665-697), with the
`firstSectionInitialized` flag. -/
def sectionRowsOf (moduleProgress : ProgressEnum) :
    Bool → List Section → List (String × ProgressEnum) × List (String × ProgressEnum)
  | _, [] => ([], [])
  | firstSectionInitialized, sec :: rest =>
      let sectionProgress :=
        if moduleProgress = ProgressEnum.IN_PROGRESS ∧ ¬firstSectionInitialized then
          ProgressEnum.IN_PROGRESS
        else ProgressEnum.INCOMPLETE
      let srest := sectionRowsOf moduleProgress true rest
      ((sec.sectionId, sectionProgress) :: srest.1,
       itemRowsOf sectionProgress false sec.sectionItems ++ srest.2)

/-- Module, section and item rows prepared for one student (lines 649-720).
The `previousModuleComplete` flag for the next module is recomputed by reading
the student's stored module progress from `s0`, the store as of the call start:
all reads happen while preparing, before the closing transaction writes. -/
def moduleRowsOf (s0 : Store) (studentId courseInstanceId : String) :
    Bool → List Module →
    List (String × ProgressEnum) × List (String × ProgressEnum) × List (String × ProgressEnum)
  | _, [] => ([], [], [])
  | previousModuleComplete, module :: rest =>
      let moduleProgress :=
        if previousModuleComplete then ProgressEnum.IN_PROGRESS
        else ProgressEnum.INCOMPLETE
      let secRows := sectionRowsOf moduleProgress false module.sections
      let previousModuleComplete' :=
        s0.moduleProgress studentId module.moduleId courseInstanceId ==
          some ProgressEnum.COMPLETE
      let mrest :=
        moduleRowsOf s0 studentId courseInstanceId previousModuleComplete' rest
      ((module.moduleId, moduleProgress) :: mrest.1,
       secRows.1 ++ mrest.2.1, secRows.2 ++ mrest.2.2)

/-- `prisma.totalProgress.upsert` with `update: { progress: 0 }`: forcefully
create or reset the aggregate to 0. -/
def upsertTotalProgress (s : Store) (studentId courseInstanceId : String) : Store :=
  { s with totalProgress := fun st ci =>
      if st = studentId ∧ ci = courseInstanceId then some 0
      else s.totalProgress st ci }

/-- `prisma.studentCourseProgress.upsert` with `update: {}`: create the course
row IN_PROGRESS if absent, leave an existing row untouched. -/
def upsertCourseRow (s : Store) (studentId courseInstanceId : String) : Store :=
  match s.courseProgress studentId courseInstanceId with
  | some _ => s
  | none =>
      { s with courseProgress := fun st ci =>
          if st = studentId ∧ ci = courseInstanceId then some ProgressEnum.IN_PROGRESS
          else s.courseProgress st ci }

/-- One row of `createMany` with `skipDuplicates: true` at the module level:
insert only if the primary key is absent. -/
def insertModuleRow (studentId courseInstanceId : String) (s : Store)
    (row : String × ProgressEnum) : Store :=
  if s.moduleProgress studentId row.1 courseInstanceId = none then
    { s with moduleProgress := fun st id ci =>
        if st = studentId ∧ id = row.1 ∧ ci = courseInstanceId then some row.2
        else s.moduleProgress st id ci }
  else s

/-- `createMany` with `skipDuplicates` over the prepared module rows. -/
def insertModuleRows (studentId courseInstanceId : String)
    (rows : List (String × ProgressEnum)) (s : Store) : Store :=
  rows.foldl (insertModuleRow studentId courseInstanceId) s

/-- Skip-duplicates insert of one section row. -/
def insertSectionRow (studentId courseInstanceId : String) (s : Store)
    (row : String × ProgressEnum) : Store :=
  if s.sectionProgress studentId row.1 courseInstanceId = none then
    { s with sectionProgress := fun st id ci =>
        if st = studentId ∧ id = row.1 ∧ ci = courseInstanceId then some row.2
        else s.sectionProgress st id ci }
  else s

/-- `createMany` with `skipDuplicates` over the prepared section rows. -/
def insertSectionRows (studentId courseInstanceId : String)
    (rows : List (String × ProgressEnum)) (s : Store) : Store :=
  rows.foldl (insertSectionRow studentId courseInstanceId) s

/-- Skip-duplicates insert of one section-item row. -/
def insertItemRow (studentId courseInstanceId : String) (s : Store)
    (row : String × ProgressEnum) : Store :=
  if s.itemProgress studentId row.1 courseInstanceId = none then
    { s with itemProgress := fun st id ci =>
        if st = studentId ∧ id = row.1 ∧ ci = courseInstanceId then some row.2
        else s.itemProgress st id ci }
  else s

/-- `createMany` with `skipDuplicates` over the prepared section-item rows. -/
def insertItemRows (studentId courseInstanceId : String)
    (rows : List (String × ProgressEnum)) (s : Store) : Store :=
  rows.foldl (insertItemRow studentId courseInstanceId) s

/-- `prisma.moduleNext.upsert`: update only `nextModuleId` if the row exists,
else create the whole record. -/
def upsertModuleNext (s : Store) (r : ModuleNextRec) : Store :=
  if s.moduleNext.any (fun x => x.moduleId == r.moduleId) then
    { s with moduleNext := s.moduleNext.map (fun x =>
        if x.moduleId == r.moduleId then { x with nextModuleId := r.nextModuleId } else x) }
  else { s with moduleNext := s.moduleNext ++ [r] }

/-- `prisma.sectionNext.upsert`: update only `nextSectionId` if present. -/
def upsertSectionNext (s : Store) (r : SectionNextRec) : Store :=
  if s.sectionNext.any (fun x => x.sectionId == r.sectionId) then
    { s with sectionNext := s.sectionNext.map (fun x =>
        if x.sectionId == r.sectionId then { x with nextSectionId := r.nextSectionId } else x) }
  else { s with sectionNext := s.sectionNext ++ [r] }

/-- `prisma.sectionItemNext.upsert`: update only `nextSectionItemId` if present. -/
def upsertSectionItemNext (s : Store) (r : SectionItemNextRec) : Store :=
  if s.sectionItemNext.any (fun x => x.sectionItemId == r.sectionItemId) then
    { s with sectionItemNext := s.sectionItemNext.map (fun x =>
        if x.sectionItemId == r.sectionItemId then
          { x with nextSectionItemId := r.nextSectionItemId }
        else x) }
  else { s with sectionItemNext := s.sectionItemNext ++ [r] }

/-- The operations queued for one student, applied in queue order, plus the
`totalRecords` accounting: `+1` after the course upsert (the TotalProgress
upsert and the adjacency upserts are not counted) and `+` the lengths of the
three prepared row lists — prepared rows, whether or not the insert skips
them.  Reads come from `s0`, the store at call start. -/
def initStudent (s0 : Store) (courseInstanceId : String) (modules : List Module)
    (nextData : NextData) (acc : Store × Nat) (studentId : String) : Store × Nat :=
  let store := upsertTotalProgress acc.1 studentId courseInstanceId
  let store := upsertCourseRow store studentId courseInstanceId
  let rows := moduleRowsOf s0 studentId courseInstanceId true modules
  let store := insertModuleRows studentId courseInstanceId rows.1 store
  let store := insertSectionRows studentId courseInstanceId rows.2.1 store
  let store := insertItemRows studentId courseInstanceId rows.2.2 store
  let store := nextData.moduleNextData.foldl upsertModuleNext store
  let store := nextData.sectionNextData.foldl upsertSectionNext store
  let store := nextData.sectionItemNextData.foldl upsertSectionItemNext store
  (store, acc.2 + 1 + rows.1.length + rows.2.1.length + rows.2.2.length)

/-- Counts returned by the initializer. -/
structure InitResult where
  studentCount : Nat
  totalRecords : Nat
deriving DecidableEq

/-- `initializeStudentProgress` of the source.  `extractAllIds` runs first and
mutates the curriculum in place (sections and items sorted, top-level module
order untouched); the destructured `modules` array aliases that mutated data,
and `getNextData` is likewise called on it.  All reads during preparation see
the store as of call start; the queued writes then run in one transaction,
modelled as the sequential application of the queued operations. -/
def initializeStudentProgress (s : Store) (courseData : CourseProgressData) :
    Store × InitResult :=
  let courseData' := (extractAllIds courseData).2
  let nextData := getNextData courseData'
  let result := courseData.studentIds.foldl
    (initStudent s courseData.courseInstanceId courseData'.modules nextData) (s, 0)
  (result.1, { studentCount := courseData.studentIds.length, totalRecords := result.2 })

/-! Helper lemmas: marking progress rows leaves the adjacency tables unchanged,
so adjacency lookups commute with every mark operation. -/

theorem getSectionItemDetails_markItem (s : Store) (a b c : String) (p : ProgressEnum)
    (i : String) : getSectionItemDetails (markItem s a b c p) i = getSectionItemDetails s i := rfl

theorem getSectionItemDetails_markSection (s : Store) (a b c : String) (p : ProgressEnum)
    (i : String) : getSectionItemDetails (markSection s a b c p) i = getSectionItemDetails s i := rfl

theorem getSectionItemDetails_markModule (s : Store) (a b c : String) (p : ProgressEnum)
    (i : String) : getSectionItemDetails (markModule s a b c p) i = getSectionItemDetails s i := rfl

theorem getSectionDetails_markItem (s : Store) (a b c : String) (p : ProgressEnum)
    (i : String) : getSectionDetails (markItem s a b c p) i = getSectionDetails s i := rfl

theorem getSectionDetails_markSection (s : Store) (a b c : String) (p : ProgressEnum)
    (i : String) : getSectionDetails (markSection s a b c p) i = getSectionDetails s i := rfl

theorem getSectionDetails_markModule (s : Store) (a b c : String) (p : ProgressEnum)
    (i : String) : getSectionDetails (markModule s a b c p) i = getSectionDetails s i := rfl

theorem getModuleDetails_markItem (s : Store) (a b c : String) (p : ProgressEnum)
    (i : String) : getModuleDetails (markItem s a b c p) i = getModuleDetails s i := rfl

theorem getModuleDetails_markSection (s : Store) (a b c : String) (p : ProgressEnum)
    (i : String) : getModuleDetails (markSection s a b c p) i = getModuleDetails s i := rfl

theorem getModuleDetails_markModule (s : Store) (a b c : String) (p : ProgressEnum)
    (i : String) : getModuleDetails (markModule s a b c p) i = getModuleDetails s i := rfl

/-- CLAIM C1.  For every call to `CompleteSectionItems`
(`updateSectionItemProgress`), if the item the loop is about to process has a
predecessor by reversed adjacency and that predecessor's stored status is not
COMPLETE, the whole call fails with `GatingViolation` and no writes are
performed for that item: the error carries the store exactly as it was when
the item's iteration began.  The store `s` ranges over all states, so this
covers an item at any position of the caller's list (the loop reduces to this
statement at every step). -/
theorem completeSectionItems_gatingViolation (s : Store)
    (courseInstanceId studentId sectionItemId : String) (rest : List String)
    (cascade : Bool) (prev : SectionItemNextRec) (p : ProgressEnum)
    (h1 : s.sectionItemNext.find?
      (fun r => r.nextSectionItemId == some sectionItemId) = some prev)
    (h2 : s.itemProgress studentId prev.sectionItemId courseInstanceId = some p)
    (h3 : p ≠ ProgressEnum.COMPLETE) :
    updateSectionItemProgress s courseInstanceId studentId (sectionItemId :: rest) cascade =
      .error (.gatingViolation sectionItemId prev.sectionItemId, s) := by
  have hg : gatingPrev s studentId courseInstanceId sectionItemId =
      some prev.sectionItemId := by
    simp only [gatingPrev, h1, h2, if_pos h3]
  unfold updateSectionItemProgress updateSectionItemProgressOne
  rw [hg]

/-- Store for the C1 witness: `i1` precedes `i2` and is only IN_PROGRESS. -/
def c1Store : Store :=
  { emptyStore with
    sectionItemNext := [⟨"i1", some "i2", "s1"⟩],
    itemProgress := fun st id ci =>
      if st = "stu" ∧ id = "i1" ∧ ci = "c" then some ProgressEnum.IN_PROGRESS else none }

/-- Witness for C1: completing `i2` while its predecessor `i1` is IN_PROGRESS
fails with the gating violation and an unchanged store. -/
theorem completeSectionItems_gatingViolation_witness :
    updateSectionItemProgress c1Store "c" "stu" ["i2"] true =
      .error (.gatingViolation "i2" "i1", c1Store) :=
  completeSectionItems_gatingViolation c1Store "c" "stu" "i2" [] true
    ⟨"i1", some "i2", "s1"⟩ ProgressEnum.IN_PROGRESS rfl rfl (by decide)

/-- Store for the C7 counterexample: adjacency says `p` precedes `i`, but `p`
has no stored progress row at all. -/
def c7Store : Store :=
  { emptyStore with sectionItemNext := [⟨"p", some "i", "s"⟩, ⟨"i", none, "s"⟩] }

/-- COUNTEREXAMPLE to C7 as stated.  The claim says a missing predecessor
progress row during the gating check makes the call fail with `NotFound`.  In
`c7Store` the predecessor `p` of `i` exists in adjacency but has no progress
row, yet `CompleteSectionItems` on `["i"]` SUCCEEDS (the guard
`previousItemProgress && progress !== COMPLETE` treats the missing row as a
passed gate), returning the normal single-item update instead of any error. -/
theorem completeSectionItems_missingPrev_counterexample :
    (updateSectionItemProgress c7Store "c" "stu" ["i"] false).map Prod.snd =
      Except.ok [{ course := none, modules := none, sections := none,
                   sectionItems := some ["i"] }] ∧
    (updateSectionItemProgress c7Store "c" "stu" ["i"] false).isOk = true :=
  ⟨rfl, rfl⟩

/-- CLAIM C7 as amended.  During `CompleteSectionItems`, a missing adjacency
record for the item, its section, or its module encountered during cascade is
a fatal `NotFound` error surfaced to the caller (not skipped or retried) —
but a missing progress row for the predecessor item during the gating check is
silently treated as a passed gate (see the counterexample), so it is excluded.
Each error carries the store at throw time: the COMPLETE mark written before
the failing lookup persists. -/
theorem completeSectionItems_notFound :
    (∀ (s : Store) (courseInstanceId studentId sectionItemId : String)
        (rest : List String),
      gatingPrev s studentId courseInstanceId sectionItemId = none →
      getSectionItemDetails s sectionItemId = none →
      updateSectionItemProgress s courseInstanceId studentId (sectionItemId :: rest) true =
        .error (.notFound ("Section item details not found for sectionItemId " ++ sectionItemId),
          markItem s studentId sectionItemId courseInstanceId ProgressEnum.COMPLETE)) ∧
    (∀ (s : Store) (courseInstanceId studentId sectionId : String) (cascade : Bool),
      getSectionDetails s sectionId = none →
      updateSectionProgress s courseInstanceId studentId sectionId cascade =
        .error (.notFound ("Section details not found for sectionId " ++ sectionId),
          markSection s studentId sectionId courseInstanceId ProgressEnum.COMPLETE)) ∧
    (∀ (s : Store) (courseInstanceId studentId moduleId : String) (cascade : Bool),
      getModuleDetails s moduleId = none →
      updateModuleProgress s courseInstanceId studentId moduleId cascade =
        .error (.notFound ("Module details not found for moduleId " ++ moduleId),
          markModule s studentId moduleId courseInstanceId ProgressEnum.COMPLETE)) := by
  refine ⟨?_, ?_, ?_⟩
  · intro s ci st itemId rest hg hd
    unfold updateSectionItemProgress updateSectionItemProgressOne
    rw [hg]
    simp [getSectionItemDetails_markItem, hd]
  · intro s ci st sectionId cascade hd
    unfold updateSectionProgress
    simp only [getSectionDetails_markSection, hd]
  · intro s ci st moduleId cascade hd
    unfold updateModuleProgress
    simp only [getModuleDetails_markModule, hd]

/-- Witness for the amended C7, applying all three conjuncts on the empty
store (every adjacency lookup misses). -/
theorem completeSectionItems_notFound_witness :
    updateSectionItemProgress emptyStore "c" "stu" ["i"] true =
      .error (.notFound ("Section item details not found for sectionItemId " ++ "i"),
        markItem emptyStore "stu" "i" "c" ProgressEnum.COMPLETE) ∧
    updateSectionProgress emptyStore "c" "stu" "s" true =
      .error (.notFound ("Section details not found for sectionId " ++ "s"),
        markSection emptyStore "stu" "s" "c" ProgressEnum.COMPLETE) ∧
    updateModuleProgress emptyStore "c" "stu" "m" true =
      .error (.notFound ("Module details not found for moduleId " ++ "m"),
        markModule emptyStore "stu" "m" "c" ProgressEnum.COMPLETE) :=
  ⟨completeSectionItems_notFound.1 emptyStore "c" "stu" "i" [] rfl rfl,
   completeSectionItems_notFound.2.1 emptyStore "c" "stu" "s" true rfl,
   completeSectionItems_notFound.2.2 emptyStore "c" "stu" "m" true rfl⟩

/-- Store for the C2 counterexample: `i1` is the last item of `s1`, the last
section of `m1`, and module `m2` (first section `s2`, first item `i2`)
follows. -/
def c2Store : Store :=
  { emptyStore with
    sectionItemNext := [⟨"i1", none, "s1"⟩, ⟨"i2", none, "s2"⟩],
    sectionNext := [⟨"s1", none, "m1", some "i1"⟩, ⟨"s2", none, "m2", some "i2"⟩],
    moduleNext := [⟨"m1", some "m2", "c", some "s1"⟩, ⟨"m2", none, "c", some "s2"⟩] }

/-- COUNTEREXAMPLE to C2 as stated.  Completing the last item `i1` of the last
section `s1` of module `m1` (module `m2` follows) yields an update whose
`sections` list is exactly `["s1"]`: the next module's first section `"s2"` is
NOT in it, contradicting the claim that the sections list contains both the
completed section and the next module's first section.  (The spread
`{...updatedEntities, sections: [sectionId]}` replaces the module-cascade
`sections` instead of merging.) -/
theorem completeSectionItems_moduleCascade_counterexample :
    (updateSectionItemProgress c2Store "c" "stu" ["i1"] true).map Prod.snd =
      Except.ok [{ course := none, modules := some ["m1", "m2"],
                   sections := some ["s1"], sectionItems := some ["i2", "i1"] }] ∧
    "s2" ∉ (["s1"] : List String) :=
  ⟨rfl, by decide⟩

/-- CLAIM C2 as amended.  When the completed item is the last item of the last
section of a module with a following module, the per-item update is the
module-cascade result with its `sections` list REPLACED by the completed
section only and the completed item appended to `sectionItems`: modules
`[moduleId, nextModuleId]`, sections `[sectionId]` (the next module's first
section is dropped from the report), sectionItems
`[firstItemOfNextModule, itemId]`. -/
theorem completeSectionItems_moduleCascade (s : Store)
    (courseInstanceId studentId sectionItemId m2 s2 i2 : String)
    (itemRec : SectionItemNextRec) (secRec : SectionNextRec)
    (modRec mod2Rec : ModuleNextRec) (sec2Rec : SectionNextRec)
    (hgate : gatingPrev s studentId courseInstanceId sectionItemId = none)
    (hitem : getSectionItemDetails s sectionItemId = some itemRec)
    (hlastItem : itemRec.nextSectionItemId = none)
    (hsec : getSectionDetails s itemRec.sectionId = some secRec)
    (hlastSec : secRec.nextSectionId = none)
    (hmod : getModuleDetails s secRec.moduleId = some modRec)
    (hnextMod : modRec.nextModuleId = some m2) (hm2 : m2 ≠ "")
    (hmod2 : getModuleDetails s m2 = some mod2Rec)
    (hfirstSec : mod2Rec.sectionId = some s2)
    (hsec2 : getSectionDetails s s2 = some sec2Rec)
    (hfirstItem : sec2Rec.sectionItemId = some i2) :
    (updateSectionItemProgress s courseInstanceId studentId [sectionItemId] true).map Prod.snd =
      Except.ok [{ course := none,
                   modules := some [secRec.moduleId, m2],
                   sections := some [itemRec.sectionId],
                   sectionItems := some [i2, sectionItemId] }] := by
  unfold updateSectionItemProgress updateSectionItemProgressOne
  rw [hgate]
  simp only [getSectionItemDetails_markItem, hitem]
  unfold updateSectionProgress updateModuleProgress
  simp [getSectionDetails_markItem, getSectionDetails_markSection, getSectionDetails_markModule,
    getModuleDetails_markItem, getModuleDetails_markSection, getModuleDetails_markModule,
    hlastItem, hsec, hlastSec, hmod, hnextMod, hmod2, hfirstSec, hsec2, hfirstItem,
    jsTruthy, strOrNull, hm2, updateEntityListFields, updateSectionItemProgress]
  rfl

/-- Witness for the amended C2 on `c2Store`. -/
theorem completeSectionItems_moduleCascade_witness :
    (updateSectionItemProgress c2Store "c" "stu" ["i1"] true).map Prod.snd =
      Except.ok [{ course := none, modules := some ["m1", "m2"],
                   sections := some ["s1"], sectionItems := some ["i2", "i1"] }] :=
  completeSectionItems_moduleCascade c2Store "c" "stu" "i1" "m2" "s2" "i2"
    ⟨"i1", none, "s1"⟩ ⟨"s1", none, "m1", some "i1"⟩
    ⟨"m1", some "m2", "c", some "s1"⟩ ⟨"m2", none, "c", some "s2"⟩
    ⟨"s2", none, "m2", some "i2"⟩
    rfl rfl rfl rfl rfl rfl rfl (by decide) rfl rfl rfl rfl

/-! Helper lemmas for the sequence orderings used by the sorts. -/

instance : IsTotal Module (fun a b => a.sequence ≤ b.sequence) :=
  ⟨fun a b => le_total a.sequence b.sequence⟩

instance : IsTrans Module (fun a b => a.sequence ≤ b.sequence) :=
  ⟨fun _ _ _ h1 h2 => le_trans h1 h2⟩

instance : IsTotal Section (fun a b => a.sequence ≤ b.sequence) :=
  ⟨fun a b => le_total a.sequence b.sequence⟩

instance : IsTrans Section (fun a b => a.sequence ≤ b.sequence) :=
  ⟨fun _ _ _ h1 h2 => le_trans h1 h2⟩

instance : IsTotal SectionItem (fun a b => a.sequence ≤ b.sequence) :=
  ⟨fun a b => le_total a.sequence b.sequence⟩

instance : IsTrans SectionItem (fun a b => a.sequence ≤ b.sequence) :=
  ⟨fun _ _ _ h1 h2 => le_trans h1 h2⟩

theorem sortModules_pairwise (l : List Module) :
    (sortModules l).Pairwise (fun a b => a.sequence ≤ b.sequence) :=
  List.sorted_insertionSort (fun a b : Module => a.sequence ≤ b.sequence) l

theorem sortSections_pairwise (l : List Section) :
    (sortSections l).Pairwise (fun a b => a.sequence ≤ b.sequence) :=
  List.sorted_insertionSort (fun a b : Section => a.sequence ≤ b.sequence) l

theorem sortSectionItems_pairwise (l : List SectionItem) :
    (sortSectionItems l).Pairwise (fun a b => a.sequence ≤ b.sequence) :=
  List.sorted_insertionSort (fun a b : SectionItem => a.sequence ≤ b.sequence) l

/-- The curriculum after `extractAllIds`: top-level modules in original order,
each module's inner lists sorted in place. -/
theorem extractAllIds_post (cd : CourseProgressData) :
    (extractAllIds cd).2 = { cd with modules := cd.modules.map sortModuleInner } := by
  cases hfind : (sortModules (cd.modules.map sortModuleInner)).find?
      (fun m => m.sequence == 1) with
  | none => simp [extractAllIds, hfind]
  | some fm => simp [extractAllIds, hfind]

/-- The record `getNextData` emits for the positionally last section of a
module's `sections` array has a null next-pointer. -/
theorem sectionNextOf_getLast_none (moduleId : String) (l : List Section)
    (r : SectionNextRec)
    (hr : (sectionNextOf moduleId l).getLast? = some r) : r.nextSectionId = none := by
  induction l with
  | nil => simp [sectionNextOf] at hr
  | cons s rest ih =>
    cases rest with
    | nil =>
      simp [sectionNextOf, List.getLast?] at hr
      rw [← hr]
      rfl
    | cons s' rest' =>
      rw [sectionNextOf, sectionNextOf, List.getLast?_cons_cons, ← sectionNextOf] at hr
      exact ih hr

/-- The record `getNextData` emits for the positionally last item of a
section's `sectionItems` array has a null next-pointer. -/
theorem sectionItemNextOf_getLast_none (sectionId : String) (l : List SectionItem)
    (r : SectionItemNextRec)
    (hr : (sectionItemNextOf sectionId l).getLast? = some r) :
    r.nextSectionItemId = none := by
  induction l with
  | nil => simp [sectionItemNextOf] at hr
  | cons it rest ih =>
    cases rest with
    | nil =>
      simp [sectionItemNextOf, List.getLast?] at hr
      rw [← hr]
      rfl
    | cons it' rest' =>
      rw [sectionItemNextOf, sectionItemNextOf, List.getLast?_cons_cons,
        ← sectionItemNextOf] at hr
      exact ih hr

/-- CLAIM C5.  Adjacency next-pointers never cross a parent boundary.  In the
curriculum actually fed to `getNextData` by the initializer (the post-
`extractAllIds` data, whose sibling lists are sorted by sequence), the
adjacency record built for the last section of any module has
`nextSectionId = null` even when a subsequent module exists, and the record
for the last item of any section has `nextSectionItemId = null` even when a
subsequent section exists; the `sectionNextData`/`sectionItemNextData` tables
are exactly the per-parent blocks, so no pointer can leave its parent. -/
theorem adjacency_never_crosses_parent (cd : CourseProgressData) :
    ((getNextData (extractAllIds cd).2).sectionNextData =
      (extractAllIds cd).2.modules.flatMap (fun m => sectionNextOf m.moduleId m.sections)) ∧
    ((getNextData (extractAllIds cd).2).sectionItemNextData =
      (extractAllIds cd).2.modules.flatMap
        (fun m => m.sections.flatMap
          (fun sec => sectionItemNextOf sec.sectionId sec.sectionItems))) ∧
    (∀ m ∈ (extractAllIds cd).2.modules,
      m.sections.Pairwise (fun a b => a.sequence ≤ b.sequence) ∧
      ∀ r, (sectionNextOf m.moduleId m.sections).getLast? = some r →
        r.nextSectionId = none) ∧
    (∀ m ∈ (extractAllIds cd).2.modules, ∀ sec ∈ m.sections,
      sec.sectionItems.Pairwise (fun a b => a.sequence ≤ b.sequence) ∧
      ∀ r, (sectionItemNextOf sec.sectionId sec.sectionItems).getLast? = some r →
        r.nextSectionItemId = none) := by
  refine ⟨rfl, rfl, ?_, ?_⟩
  · intro m hm
    rw [extractAllIds_post] at hm
    simp only [List.mem_map] at hm
    obtain ⟨m0, _, rfl⟩ := hm
    exact ⟨sortSections_pairwise _, fun r hr => sectionNextOf_getLast_none _ _ r hr⟩
  · intro m hm sec hsec
    rw [extractAllIds_post] at hm
    simp only [List.mem_map] at hm
    obtain ⟨m0, _, rfl⟩ := hm
    have : sec ∈ (m0.sections.map sortSectionInner) :=
      (List.perm_insertionSort _ _).mem_iff.mp hsec
    simp only [List.mem_map] at this
    obtain ⟨s0, _, rfl⟩ := this
    exact ⟨sortSectionItems_pairwise _, fun r hr => sectionItemNextOf_getLast_none _ _ r hr⟩

/-- Curriculum for the C5 witness: module `mA` with two sections is followed
by module `mB`, and section `sA1` has two items with section `sA2` following. -/
def c5Data : CourseProgressData :=
  { courseInstanceId := "c", studentIds := [],
    modules :=
      [ { moduleId := "mA", sequence := 1, sections :=
          [ { sectionId := "sA1", sequence := 1, sectionItems :=
              [ ⟨"iA1", 1⟩, ⟨"iA2", 2⟩ ] },
            { sectionId := "sA2", sequence := 2, sectionItems := [ ⟨"iA3", 1⟩ ] } ] },
        { moduleId := "mB", sequence := 2, sections :=
          [ { sectionId := "sB1", sequence := 1, sectionItems := [ ⟨"iB1", 1⟩ ] } ] } ] }

/-- Witness for C5: in `c5Data`, the record for `sA2` (last section of `mA`,
with module `mB` following) has a null next-pointer, and the record for
`iA2` (last item of `sA1`, with section `sA2` following) has a null
next-pointer. -/
theorem adjacency_never_crosses_parent_witness :
    (∀ r, (sectionNextOf "mA"
        (sortSections (([ { sectionId := "sA1", sequence := 1, sectionItems :=
              [ ⟨"iA1", 1⟩, ⟨"iA2", 2⟩ ] },
            { sectionId := "sA2", sequence := 2, sectionItems := [ ⟨"iA3", 1⟩ ] } ] :
            List Section).map sortSectionInner))).getLast? = some r →
      r.nextSectionId = none) ∧
    (∀ r, (sectionItemNextOf "sA1"
        (sortSectionItems [ ⟨"iA1", 1⟩, ⟨"iA2", 2⟩ ])).getLast? = some r →
      r.nextSectionItemId = none) := by
  constructor
  · have h := ((adjacency_never_crosses_parent c5Data).2.2.1
      (sortModuleInner { moduleId := "mA", sequence := 1, sections :=
          [ { sectionId := "sA1", sequence := 1, sectionItems :=
              [ ⟨"iA1", 1⟩, ⟨"iA2", 2⟩ ] },
            { sectionId := "sA2", sequence := 2, sectionItems := [ ⟨"iA3", 1⟩ ] } ] })
      (by rw [extractAllIds_post]; simp [c5Data])).2
    exact h
  · have h := ((adjacency_never_crosses_parent c5Data).2.2.2
      (sortModuleInner { moduleId := "mA", sequence := 1, sections :=
          [ { sectionId := "sA1", sequence := 1, sectionItems :=
              [ ⟨"iA1", 1⟩, ⟨"iA2", 2⟩ ] },
            { sectionId := "sA2", sequence := 2, sectionItems := [ ⟨"iA3", 1⟩ ] } ] })
      (by rw [extractAllIds_post]; simp [c5Data])
      (sortSectionInner { sectionId := "sA1", sequence := 1, sectionItems :=
          [ ⟨"iA1", 1⟩, ⟨"iA2", 2⟩ ] })
      (by decide)).2
    exact h

/-- Spec-side description of a next-pointer walk over one sibling list: every
id is paired with the id that follows it in the list, the last with none. -/
def succPairs : List String → List (String × Option String)
  | [] => []
  | x :: rest => (x, rest.head?) :: succPairs rest

theorem moduleNextOf_pairs (courseInstanceId : String) (l : List Module)
    (h : ∀ m ∈ l, m.moduleId ≠ "") :
    (moduleNextOf courseInstanceId l).map (fun r => (r.moduleId, r.nextModuleId)) =
      succPairs (l.map (·.moduleId)) := by
  induction l with
  | nil => rfl
  | cons m rest ih =>
    simp only [moduleNextOf, List.map, succPairs]
    refine congrArg₂ _ ?_ (ih (fun x hx => h x (List.mem_cons_of_mem m hx)))
    cases rest with
    | nil => rfl
    | cons m' rest' =>
      have hm' : m'.moduleId ≠ "" := h m' (by simp)
      simp [jsTruthy, strOrNull, hm']

theorem sectionNextOf_pairs (moduleId : String) (l : List Section)
    (h : ∀ sec ∈ l, sec.sectionId ≠ "") :
    (sectionNextOf moduleId l).map (fun r => (r.sectionId, r.nextSectionId)) =
      succPairs (l.map (·.sectionId)) := by
  induction l with
  | nil => rfl
  | cons s rest ih =>
    simp only [sectionNextOf, List.map, succPairs]
    refine congrArg₂ _ ?_ (ih (fun x hx => h x (List.mem_cons_of_mem s hx)))
    cases rest with
    | nil => rfl
    | cons s' rest' =>
      have hs' : s'.sectionId ≠ "" := h s' (by simp)
      simp [jsTruthy, strOrNull, hs']

theorem sectionItemNextOf_pairs (sectionId : String) (l : List SectionItem)
    (h : ∀ it ∈ l, it.sectionItemId ≠ "") :
    (sectionItemNextOf sectionId l).map (fun r => (r.sectionItemId, r.nextSectionItemId)) =
      succPairs (l.map (·.sectionItemId)) := by
  induction l with
  | nil => rfl
  | cons it rest ih =>
    simp only [sectionItemNextOf, List.map, succPairs]
    refine congrArg₂ _ ?_ (ih (fun x hx => h x (List.mem_cons_of_mem it hx)))
    cases rest with
    | nil => rfl
    | cons it' rest' =>
      have hi' : it'.sectionItemId ≠ "" := h it' (by simp)
      simp [jsTruthy, strOrNull, hi']

/-- Membership transport: a section of a post-`extractAllIds` module is the
item-sorted image of a section of the original module. -/
theorem mem_sortModuleInner_sections {m0 : Module} {sec : Section}
    (hsec : sec ∈ (sortModuleInner m0).sections) :
    ∃ s0 ∈ m0.sections, sec = sortSectionInner s0 := by
  have : sec ∈ m0.sections.map sortSectionInner :=
    (List.perm_insertionSort _ _).mem_iff.mp hsec
  simp only [List.mem_map] at this
  obtain ⟨s0, hs0, rfl⟩ := this
  exact ⟨s0, hs0, rfl⟩

/-- CLAIM C4, counterexample input: two modules given in reverse sequence
order (no sections, so only the module level is populated). -/
def c4Data : CourseProgressData :=
  { courseInstanceId := "c", studentIds := [],
    modules := [ ⟨"m2", 2, []⟩, ⟨"m1", 1, []⟩ ] }

/-- COUNTEREXAMPLE to C4 as stated.  In `c4Data` the module `m2` has the
largest sequence among its siblings, so by the claim its adjacency record
should have `nextId = null`; but the initializer's adjacency build walks the
top-level module array in input order (only a shallow copy is sorted), so
`m2`'s record points to `m1`. -/
theorem getNextData_walk_counterexample :
    ((getNextData (extractAllIds c4Data).2).moduleNextData.map
      (fun r => (r.moduleId, r.nextModuleId)) = [("m2", some "m1"), ("m1", none)]) ∧
    (∀ m ∈ c4Data.modules, m.sequence ≤ 2) ∧
    (some "m1" : Option String) ≠ none :=
  ⟨rfl, by decide, by decide⟩

/-- CLAIM C4 as amended.  For the adjacency built by the initializer
(`getNextData` on the post-`extractAllIds` curriculum), at the section and
section-item levels each sibling list is walked in ascending sequence order
(the lists were sorted in place) and `nextId` is the following sibling's id or
null for the last; at the MODULE level, however, the list is walked in the
input array order, not sequence order, because `extractAllIds` sorts only a
shallow copy of the top-level array.  All ids are assumed non-empty (an empty
string id would be coerced to null by `|| null`). -/
theorem getNextData_walk (cd : CourseProgressData)
    (hm : ∀ m ∈ cd.modules, m.moduleId ≠ "")
    (hs : ∀ m ∈ cd.modules, ∀ sec ∈ m.sections, sec.sectionId ≠ "")
    (hi : ∀ m ∈ cd.modules, ∀ sec ∈ m.sections, ∀ it ∈ sec.sectionItems,
      it.sectionItemId ≠ "") :
    ((getNextData (extractAllIds cd).2).moduleNextData.map
        (fun r => (r.moduleId, r.nextModuleId)) =
      succPairs (cd.modules.map (·.moduleId))) ∧
    ((getNextData (extractAllIds cd).2).sectionNextData.map
        (fun r => (r.sectionId, r.nextSectionId)) =
      (extractAllIds cd).2.modules.flatMap
        (fun m => succPairs (m.sections.map (·.sectionId)))) ∧
    (∀ m ∈ (extractAllIds cd).2.modules,
      m.sections.Pairwise (fun a b => a.sequence ≤ b.sequence)) ∧
    ((getNextData (extractAllIds cd).2).sectionItemNextData.map
        (fun r => (r.sectionItemId, r.nextSectionItemId)) =
      (extractAllIds cd).2.modules.flatMap
        (fun m => m.sections.flatMap
          (fun sec => succPairs (sec.sectionItems.map (·.sectionItemId))))) ∧
    (∀ m ∈ (extractAllIds cd).2.modules, ∀ sec ∈ m.sections,
      sec.sectionItems.Pairwise (fun a b => a.sequence ≤ b.sequence)) := by
  have hpost : (extractAllIds cd).2.modules = cd.modules.map sortModuleInner := by
    rw [extractAllIds_post]
  have hm' : ∀ m ∈ (extractAllIds cd).2.modules, m.moduleId ≠ "" := by
    rw [hpost]
    intro m hmm
    simp only [List.mem_map] at hmm
    obtain ⟨m0, hm0, rfl⟩ := hmm
    exact hm m0 hm0
  have hs' : ∀ m ∈ (extractAllIds cd).2.modules, ∀ sec ∈ m.sections, sec.sectionId ≠ "" := by
    rw [hpost]
    intro m hmm sec hsec
    simp only [List.mem_map] at hmm
    obtain ⟨m0, hm0, rfl⟩ := hmm
    obtain ⟨s0, hs0, rfl⟩ := mem_sortModuleInner_sections hsec
    exact hs m0 hm0 s0 hs0
  have hi' : ∀ m ∈ (extractAllIds cd).2.modules, ∀ sec ∈ m.sections,
      ∀ it ∈ sec.sectionItems, it.sectionItemId ≠ "" := by
    rw [hpost]
    intro m hmm sec hsec it hit
    simp only [List.mem_map] at hmm
    obtain ⟨m0, hm0, rfl⟩ := hmm
    obtain ⟨s0, hs0, rfl⟩ := mem_sortModuleInner_sections hsec
    have : it ∈ s0.sectionItems :=
      (List.perm_insertionSort _ _).mem_iff.mp hit
    exact hi m0 hm0 s0 hs0 it this
  refine ⟨?_, ?_, ?_, ?_, ?_⟩
  · rw [getNextData]
    rw [moduleNextOf_pairs _ _ hm', hpost, List.map_map]
    rfl
  · rw [getNextData]
    rw [List.map_flatMap]
    exact List.flatMap_congr (fun m hmm => sectionNextOf_pairs _ _ (hs' m hmm))
  · intro m hmm
    rw [hpost] at hmm
    simp only [List.mem_map] at hmm
    obtain ⟨m0, _, rfl⟩ := hmm
    exact sortSections_pairwise _
  · rw [getNextData]
    rw [List.map_flatMap]
    refine List.flatMap_congr (fun m hmm => ?_)
    rw [List.map_flatMap]
    exact List.flatMap_congr (fun sec hsec => sectionItemNextOf_pairs _ _ (hi' m hmm sec hsec))
  · intro m hmm sec hsec
    rw [hpost] at hmm
    simp only [List.mem_map] at hmm
    obtain ⟨m0, _, rfl⟩ := hmm
    obtain ⟨s0, _, rfl⟩ := mem_sortModuleInner_sections hsec
    exact sortSectionItems_pairwise _

/-- Witness for the amended C4 on `c5Data` (all ids non-empty): the module
walk follows the input order and the section/item walks follow the sorted
sibling lists. -/
theorem getNextData_walk_witness :
    ((getNextData (extractAllIds c5Data).2).moduleNextData.map
        (fun r => (r.moduleId, r.nextModuleId)) =
      succPairs (c5Data.modules.map (·.moduleId))) ∧
    ((getNextData (extractAllIds c5Data).2).sectionNextData.map
        (fun r => (r.sectionId, r.nextSectionId)) =
      (extractAllIds c5Data).2.modules.flatMap
        (fun m => succPairs (m.sections.map (·.sectionId)))) :=
  ⟨(getNextData_walk c5Data (by decide) (by decide) (by decide)).1,
   (getNextData_walk c5Data (by decide) (by decide) (by decide)).2.1⟩

/-- A list whose filtrate is the singleton `[x]` finds `x` first. -/
theorem find?_of_filter_singleton {α : Type} {p : α → Bool} {l : List α} {x : α}
    (h : l.filter p = [x]) : l.find? p = some x := by
  induction l with
  | nil => simp at h
  | cons a rest ih =>
    rw [List.filter_cons] at h
    cases hp : p a with
    | true =>
      rw [hp, if_pos rfl] at h
      have h1 : a = x := by injection h
      rw [List.find?_cons_of_pos rest hp, h1]
    | false =>
      rw [hp] at h
      simp only [Bool.false_eq_true, if_false] at h
      rw [List.find?_cons_of_neg rest (by simp [hp])]
      exact ih h

/-- Filtering commutes with the in-place inner sorts and the top-level sort of
`extractAllIds`, for a predicate on the (preserved) `sequence` field: if the
original module list has filtrate `[m]`, the sorted mutated list has filtrate
`[sortModuleInner m]`. -/
theorem filter_seq_sortModules (cd : CourseProgressData) (m : Module)
    (h : cd.modules.filter (fun x => x.sequence == 1) = [m]) :
    (sortModules (cd.modules.map sortModuleInner)).filter (fun x => x.sequence == 1) =
      [sortModuleInner m] := by
  have hperm : (sortModules (cd.modules.map sortModuleInner)).filter (fun x => x.sequence == 1)
      |>.Perm ((cd.modules.map sortModuleInner).filter (fun x => x.sequence == 1)) :=
    (List.perm_insertionSort _ _).filter _
  have hmap : (cd.modules.map sortModuleInner).filter (fun x => x.sequence == 1) =
      (cd.modules.filter (fun x => x.sequence == 1)).map sortModuleInner := by
    rw [List.filter_map]
    rfl
  rw [hmap, h] at hperm
  exact List.perm_singleton.mp hperm

/-- Same commutation at the section level inside one module. -/
theorem filter_seq_sortSections (m : Module) (sec : Section)
    (h : m.sections.filter (fun x => x.sequence == 1) = [sec]) :
    (sortModuleInner m).sections.filter (fun x => x.sequence == 1) =
      [sortSectionInner sec] := by
  have hperm : (sortModuleInner m).sections.filter (fun x => x.sequence == 1)
      |>.Perm ((m.sections.map sortSectionInner).filter (fun x => x.sequence == 1)) :=
    (List.perm_insertionSort _ _).filter _
  have hmap : (m.sections.map sortSectionInner).filter (fun x => x.sequence == 1) =
      (m.sections.filter (fun x => x.sequence == 1)).map sortSectionInner := by
    rw [List.filter_map]
    rfl
  rw [hmap, h] at hperm
  exact List.perm_singleton.mp hperm

/-- Same commutation at the item level inside one section. -/
theorem filter_seq_sortSectionItems (sec : Section) (it : SectionItem)
    (h : sec.sectionItems.filter (fun x => x.sequence == 1) = [it]) :
    (sortSectionInner sec).sectionItems.filter (fun x => x.sequence == 1) = [it] := by
  have hperm : (sortSectionInner sec).sectionItems.filter (fun x => x.sequence == 1)
      |>.Perm (sec.sectionItems.filter (fun x => x.sequence == 1)) :=
    (List.perm_insertionSort _ _).filter _
  rw [h] at hperm
  exact List.perm_singleton.mp hperm

/-- Sectionless single-module curriculum with no sequence-1 module, for the
null half of the C8 witness. -/
def mXData : CourseProgressData :=
  { courseInstanceId := "c", studentIds := [], modules := [ ⟨"mX", 2, []⟩ ] }

/-- Curriculum for the C8 counterexample: every parent scope has exactly one
child with sequence 1, but the unique first section's id is the empty string. -/
def c8Data : CourseProgressData :=
  { courseInstanceId := "c", studentIds := [],
    modules := [ { moduleId := "m1", sequence := 1, sections :=
      [ { sectionId := "", sequence := 1, sectionItems := [⟨"i1", 1⟩] } ] } ] }

/-- COUNTEREXAMPLE to C8 as stated.  In `c8Data` each parent scope has exactly
one child with sequence 1 (shape shown in the first conjunct), so the claim
requires `firstSection` to equal that unique section's id `""`; but the
normalizer computes `firstSection?.sectionId || null`, and the empty string is
falsy in JavaScript, so the output is null instead. -/
theorem sequenceNormalizer_first_counterexample :
    ((c8Data.modules.map
        (fun m => (m.sequence, m.sections.map (fun s => (s.sequence, s.sectionId))))) =
      [(1, [(1, "")])]) ∧
    (extractAllIds c8Data).1.firstSection = none ∧
    (none : Option String) ≠ some "" :=
  ⟨rfl, rfl, by decide⟩

/-- CLAIM C8 as amended.  If the module scope, the sequence-1 module's section
scope, and that sequence-1 section's item scope each contain exactly one child
with sequence 1 (stated as singleton filtrates), and the first-chain section
and item ids are non-empty (the normalizer's `|| null` coerces an empty-string
id to null, see the counterexample), then `firstModule`, `firstSection` and
`firstSectionItem` are exactly that unique chain; and if no module has
sequence 1, all three outputs are null. -/
theorem sequenceNormalizer_first_outputs (cd : CourseProgressData) :
    (∀ (m : Module) (sec : Section) (it : SectionItem),
      cd.modules.filter (fun x => x.sequence == 1) = [m] →
      m.sections.filter (fun x => x.sequence == 1) = [sec] →
      sec.sectionItems.filter (fun x => x.sequence == 1) = [it] →
      sec.sectionId ≠ "" → it.sectionItemId ≠ "" →
      (extractAllIds cd).1.firstModule = some m.moduleId ∧
      (extractAllIds cd).1.firstSection = some sec.sectionId ∧
      (extractAllIds cd).1.firstSectionItem = some it.sectionItemId) ∧
    ((∀ m ∈ cd.modules, ¬m.sequence = 1) →
      (extractAllIds cd).1.firstModule = none ∧
      (extractAllIds cd).1.firstSection = none ∧
      (extractAllIds cd).1.firstSectionItem = none) := by
  constructor
  · intro m sec it h1 h2 h3 hsid hitid
    have hfindM : (sortModules (cd.modules.map sortModuleInner)).find?
        (fun x => x.sequence == 1) = some (sortModuleInner m) :=
      find?_of_filter_singleton (filter_seq_sortModules cd m h1)
    have hfindS : (sortModuleInner m).sections.find? (fun x => x.sequence == 1) =
        some (sortSectionInner sec) :=
      find?_of_filter_singleton (filter_seq_sortSections m sec h2)
    have hfindI : (sortSectionInner sec).sectionItems.find? (fun x => x.sequence == 1) =
        some it :=
      find?_of_filter_singleton (filter_seq_sortSectionItems sec it h3)
    refine ⟨?_, ?_, ?_⟩
    · simp [extractAllIds, hfindM, sortModuleInner]
    · simp [extractAllIds, hfindM, hfindS, jsTruthy, strOrNull, sortSectionInner, hsid]
    · simp [extractAllIds, hfindM, hfindS, hfindI, jsTruthy, strOrNull, hitid]
  · intro hno
    have hfindM : (sortModules (cd.modules.map sortModuleInner)).find?
        (fun x => x.sequence == 1) = none := by
      rw [List.find?_eq_none]
      intro x hx
      have hx' : x ∈ cd.modules.map sortModuleInner :=
        (List.perm_insertionSort _ _).mem_iff.mp hx
      simp only [List.mem_map] at hx'
      obtain ⟨m0, hm0, rfl⟩ := hx'
      simpa using hno m0 hm0
    refine ⟨?_, ?_, ?_⟩ <;> simp [extractAllIds, hfindM]

/-- Witness for the amended C8 on `c5Data` (unique sequence-1 chain
`mA / sA1 / iA1`, all ids non-empty) and on `c4Data` (which has a sequence-1
module, so the null half is witnessed on the sectionless variant below). -/
theorem sequenceNormalizer_first_outputs_witness :
    ((extractAllIds c5Data).1.firstModule = some "mA" ∧
     (extractAllIds c5Data).1.firstSection = some "sA1" ∧
     (extractAllIds c5Data).1.firstSectionItem = some "iA1") ∧
    ((extractAllIds mXData).1.firstModule = none ∧
     (extractAllIds mXData).1.firstSection = none ∧
     (extractAllIds mXData).1.firstSectionItem = none) :=
  ⟨(sequenceNormalizer_first_outputs c5Data).1
      { moduleId := "mA", sequence := 1, sections :=
          [ { sectionId := "sA1", sequence := 1, sectionItems :=
              [ ⟨"iA1", 1⟩, ⟨"iA2", 2⟩ ] },
            { sectionId := "sA2", sequence := 2, sectionItems := [ ⟨"iA3", 1⟩ ] } ] }
      { sectionId := "sA1", sequence := 1, sectionItems := [ ⟨"iA1", 1⟩, ⟨"iA2", 2⟩ ] }
      ⟨"iA1", 1⟩ rfl rfl rfl (by decide) (by decide),
   (sequenceNormalizer_first_outputs mXData).2 (by decide)⟩

/-- CLAIM C10.  `extractAllIds` mutates its input: after the call the caller's
curriculum has every module's `sections` array and every section's
`sectionItems` array sorted in place by ascending sequence (each inner list a
permutation of its original contents), while the top-level `modules` array
keeps its original order (only a shallow copy of it was sorted); the course
instance id and student list are untouched. -/
theorem extractAllIds_mutation (cd : CourseProgressData) :
    ((extractAllIds cd).2.modules.map (·.moduleId) = cd.modules.map (·.moduleId)) ∧
    ((extractAllIds cd).2.courseInstanceId = cd.courseInstanceId) ∧
    ((extractAllIds cd).2.studentIds = cd.studentIds) ∧
    List.Forall₂ (fun m m' =>
        m'.moduleId = m.moduleId ∧ m'.sequence = m.sequence ∧
        (m'.sections.map (·.sectionId)).Perm (m.sections.map (·.sectionId)) ∧
        m'.sections.Pairwise (fun a b => a.sequence ≤ b.sequence) ∧
        (∀ sec' ∈ m'.sections, ∃ s0 ∈ m.sections,
          sec'.sectionId = s0.sectionId ∧ sec'.sequence = s0.sequence ∧
          sec'.sectionItems.Perm s0.sectionItems ∧
          sec'.sectionItems.Pairwise (fun a b => a.sequence ≤ b.sequence)))
      cd.modules ((extractAllIds cd).2.modules) := by
  rw [extractAllIds_post]
  refine ⟨?_, rfl, rfl, ?_⟩
  · rw [List.map_map]
    rfl
  · rw [List.forall₂_map_right_iff]
    rw [List.forall₂_same]
    intro m _
    refine ⟨rfl, rfl, ?_, sortSections_pairwise _, ?_⟩
    · have h1 : ((sortSections (m.sections.map sortSectionInner)).map (·.sectionId)).Perm
          ((m.sections.map sortSectionInner).map (·.sectionId)) :=
        (List.perm_insertionSort _ _).map _
      have h2 : (m.sections.map sortSectionInner).map (·.sectionId) =
          m.sections.map (·.sectionId) := by
        rw [List.map_map]
        rfl
      rw [h2] at h1
      exact h1
    · intro sec' hsec'
      obtain ⟨s0, hs0, rfl⟩ := mem_sortModuleInner_sections hsec'
      exact ⟨s0, hs0, rfl, rfl, List.perm_insertionSort _ _, sortSectionItems_pairwise _⟩

/-! Helper lemmas about the sizes of the rows prepared by the initializer. -/

theorem itemRowsOf_length (sp : ProgressEnum) (b : Bool) (l : List SectionItem) :
    (itemRowsOf sp b l).length = l.length := by
  induction l generalizing b with
  | nil => rfl
  | cons it rest ih => simp [itemRowsOf, ih]

theorem sectionRowsOf_length (mp : ProgressEnum) (b : Bool) (l : List Section) :
    (sectionRowsOf mp b l).1.length = l.length ∧
    (sectionRowsOf mp b l).2.length = (l.map (fun sec => sec.sectionItems.length)).sum := by
  induction l generalizing b with
  | nil => exact ⟨rfl, rfl⟩
  | cons sec rest ih =>
    simp [sectionRowsOf, itemRowsOf_length, (ih true).1, (ih true).2]

theorem moduleRowsOf_length (s0 : Store) (studentId courseInstanceId : String)
    (b : Bool) (l : List Module) :
    (moduleRowsOf s0 studentId courseInstanceId b l).1.length = l.length ∧
    (moduleRowsOf s0 studentId courseInstanceId b l).2.1.length =
      (l.map (fun m => m.sections.length)).sum ∧
    (moduleRowsOf s0 studentId courseInstanceId b l).2.2.length =
      (l.map (fun m => (m.sections.map (fun sec => sec.sectionItems.length)).sum)).sum := by
  induction l generalizing b with
  | nil => exact ⟨rfl, rfl, rfl⟩
  | cons m rest ih =>
    have hb := ih (s0.moduleProgress studentId m.moduleId courseInstanceId ==
      some ProgressEnum.COMPLETE)
    simp [moduleRowsOf, sectionRowsOf_length, hb.1, hb.2.1, hb.2.2]

/-- Sorting the inner lists preserves all the counts. -/
theorem sortModuleInner_counts (m : Module) :
    (sortModuleInner m).sections.length = m.sections.length ∧
    ((sortModuleInner m).sections.map (fun sec => sec.sectionItems.length)).sum =
      (m.sections.map (fun sec => sec.sectionItems.length)).sum := by
  constructor
  · calc (sortModuleInner m).sections.length
        = (m.sections.map sortSectionInner).length :=
          (List.perm_insertionSort _ _).length_eq
      _ = m.sections.length := List.length_map _ _
  · have h1 : ((sortModuleInner m).sections.map (fun sec => sec.sectionItems.length)).Perm
        ((m.sections.map sortSectionInner).map (fun sec => sec.sectionItems.length)) :=
      (List.perm_insertionSort _ _).map _
    have h2 : (m.sections.map sortSectionInner).map (fun sec => sec.sectionItems.length) =
        m.sections.map (fun sec => sec.sectionItems.length) := by
      rw [List.map_map]
      refine List.map_congr_left (fun sec _ => ?_)
      exact (List.perm_insertionSort _ _).length_eq
    rw [h2] at h1
    exact h1.sum_eq

/-- The per-student `totalRecords` contribution is the same constant for every
student and every store state. -/
theorem initStudent_records (s0 : Store) (courseInstanceId : String)
    (modules : List Module) (nextData : NextData) (acc : Store × Nat) (studentId : String) :
    (initStudent s0 courseInstanceId modules nextData acc studentId).2 =
      acc.2 + (1 + modules.length +
        (modules.map (fun m => m.sections.length)).sum +
        (modules.map (fun m => (m.sections.map (fun sec => sec.sectionItems.length)).sum)).sum) := by
  have h := moduleRowsOf_length s0 studentId courseInstanceId true modules
  simp [initStudent, h.1, h.2.1, h.2.2]
  omega

theorem initStudent_fold_records (s0 : Store) (courseInstanceId : String)
    (modules : List Module) (nextData : NextData) (L : List String) (S : Store) (t : Nat) :
    (L.foldl (initStudent s0 courseInstanceId modules nextData) (S, t)).2 =
      t + L.length * (1 + modules.length +
        (modules.map (fun m => m.sections.length)).sum +
        (modules.map (fun m => (m.sections.map (fun sec => sec.sectionItems.length)).sum)).sum) := by
  induction L generalizing S t with
  | nil => simp
  | cons st rest ih =>
    rw [List.foldl_cons]
    have hstep := initStudent_records s0 courseInstanceId modules nextData (S, t) st
    rw [show initStudent s0 courseInstanceId modules nextData (S, t) st =
      ((initStudent s0 courseInstanceId modules nextData (S, t) st).1,
       (initStudent s0 courseInstanceId modules nextData (S, t) st).2) from rfl]
    rw [ih, hstep]
    rw [List.length_cons]
    ring

/-- CLAIM C9.  For every input, the `totalRecords` value returned by
`initializeStudentProgress` equals `studentIds.length` times
`1 + #modules + #sections + #sectionItems` of the input curriculum: it counts
prepared rows (rows skipped as duplicates are still counted) and excludes the
TotalProgress and adjacency records; consequently a re-run over the store the
first run produced returns the same `totalRecords`, and `studentCount` is the
number of listed students. -/
theorem initialize_totalRecords (s : Store) (cd : CourseProgressData) :
    ((initializeStudentProgress s cd).2.totalRecords =
      cd.studentIds.length * (1 + cd.modules.length +
        (cd.modules.map (fun m => m.sections.length)).sum +
        (cd.modules.map (fun m => (m.sections.map (fun sec => sec.sectionItems.length)).sum)).sum)) ∧
    ((initializeStudentProgress (initializeStudentProgress s cd).1 cd).2.totalRecords =
      (initializeStudentProgress s cd).2.totalRecords) ∧
    ((initializeStudentProgress s cd).2.studentCount = cd.studentIds.length) := by
  have key : ∀ s' : Store, (initializeStudentProgress s' cd).2.totalRecords =
      cd.studentIds.length * (1 + cd.modules.length +
        (cd.modules.map (fun m => m.sections.length)).sum +
        (cd.modules.map (fun m => (m.sections.map (fun sec => sec.sectionItems.length)).sum)).sum) := by
    intro s'
    have hfold := initStudent_fold_records s' cd.courseInstanceId
      (extractAllIds cd).2.modules (getNextData (extractAllIds cd).2) cd.studentIds s' 0
    have hmods : (extractAllIds cd).2.modules = cd.modules.map sortModuleInner := by
      rw [extractAllIds_post]
    have hlen : (extractAllIds cd).2.modules.length = cd.modules.length := by
      rw [hmods]
      exact List.length_map _ _
    have hsec : ((extractAllIds cd).2.modules.map (fun m => m.sections.length)).sum =
        (cd.modules.map (fun m => m.sections.length)).sum := by
      rw [hmods, List.map_map]
      refine congrArg List.sum (List.map_congr_left (fun m _ => ?_))
      exact (sortModuleInner_counts m).1
    have hit : ((extractAllIds cd).2.modules.map
          (fun m => (m.sections.map (fun sec => sec.sectionItems.length)).sum)).sum =
        (cd.modules.map (fun m => (m.sections.map (fun sec => sec.sectionItems.length)).sum)).sum := by
      rw [hmods, List.map_map]
      refine congrArg List.sum (List.map_congr_left (fun m _ => ?_))
      exact (sortModuleInner_counts m).2
    calc (initializeStudentProgress s' cd).2.totalRecords
        = (cd.studentIds.foldl (initStudent s' cd.courseInstanceId
            (extractAllIds cd).2.modules (getNextData (extractAllIds cd).2)) (s', 0)).2 := rfl
      _ = _ := by rw [hfold, hlen, hsec, hit]; ring
  exact ⟨key s, by rw [key, key], rfl⟩

/-- The value a skip-duplicates insert fold leaves at a key when the key's
slice started empty: the value of the FIRST prepared row with that key. -/
def firstWin (rows : List (String × ProgressEnum)) (id : String) : Option ProgressEnum :=
  (rows.find? (fun r => r.1 == id)).map (·.2)

theorem firstWin_nil (id : String) : firstWin [] id = none := rfl

theorem firstWin_cons_self (k : String) (p : ProgressEnum)
    (tail : List (String × ProgressEnum)) : firstWin ((k, p) :: tail) k = some p := by
  simp [firstWin]

theorem firstWin_cons_ne (k id : String) (p : ProgressEnum)
    (tail : List (String × ProgressEnum)) (h : id ≠ k) :
    firstWin ((k, p) :: tail) id = firstWin tail id := by
  simp [firstWin, List.find?_cons, Ne.symm h]

theorem firstWin_mem_const (rows : List (String × ProgressEnum)) (q : ProgressEnum)
    (id : String) (hall : ∀ r ∈ rows, r.2 = q) (hmem : id ∈ rows.map (·.1)) :
    firstWin rows id = some q := by
  induction rows with
  | nil => simp at hmem
  | cons r rest ih =>
    by_cases hk : r.1 = id
    · have : firstWin (r :: rest) id = some r.2 := by
        simp [firstWin, List.find?_cons, hk]
      rw [this, hall r (by simp)]
    · have h1 : firstWin (r :: rest) id = firstWin rest id := by
        simp [firstWin, List.find?_cons, hk]
      rw [h1]
      refine ih (fun x hx => hall x (by simp [hx])) ?_
      simp only [List.map_cons, List.mem_cons] at hmem
      exact hmem.resolve_left (fun he => hk he.symm)

theorem firstWin_none_of_not_mem (rows : List (String × ProgressEnum)) (id : String)
    (h : id ∉ rows.map (·.1)) : firstWin rows id = none := by
  induction rows with
  | nil => rfl
  | cons r rest ih =>
    obtain ⟨k, p⟩ := r
    simp only [List.map_cons, List.mem_cons, not_or] at h
    rw [firstWin_cons_ne k id p rest (fun he => h.1 he)]
    exact ih h.2

/-! Identity lemmas: each initializer operation only touches its own store
field; every other progress field is returned unchanged. -/

theorem upsertTotalProgress_others (S : Store) (a b : String) :
    (upsertTotalProgress S a b).courseProgress = S.courseProgress ∧
    (upsertTotalProgress S a b).moduleProgress = S.moduleProgress ∧
    (upsertTotalProgress S a b).sectionProgress = S.sectionProgress ∧
    (upsertTotalProgress S a b).itemProgress = S.itemProgress :=
  ⟨rfl, rfl, rfl, rfl⟩

theorem upsertCourseRow_others (S : Store) (a b : String) :
    (upsertCourseRow S a b).moduleProgress = S.moduleProgress ∧
    (upsertCourseRow S a b).sectionProgress = S.sectionProgress ∧
    (upsertCourseRow S a b).itemProgress = S.itemProgress ∧
    (upsertCourseRow S a b).totalProgress = S.totalProgress := by
  unfold upsertCourseRow
  cases S.courseProgress a b <;> exact ⟨rfl, rfl, rfl, rfl⟩

theorem upsertCourseRow_course (S : Store) (a b : String) :
    (upsertCourseRow S a b).courseProgress = fun st' ci' =>
      match S.courseProgress a b with
      | some _ => S.courseProgress st' ci'
      | none =>
          if st' = a ∧ ci' = b then some ProgressEnum.IN_PROGRESS
          else S.courseProgress st' ci' := by
  unfold upsertCourseRow
  cases h : S.courseProgress a b
  · rfl
  · rfl

theorem insertModuleRows_others (a b : String) (rows : List (String × ProgressEnum))
    (S : Store) :
    (insertModuleRows a b rows S).courseProgress = S.courseProgress ∧
    (insertModuleRows a b rows S).sectionProgress = S.sectionProgress ∧
    (insertModuleRows a b rows S).itemProgress = S.itemProgress ∧
    (insertModuleRows a b rows S).totalProgress = S.totalProgress := by
  induction rows generalizing S with
  | nil => exact ⟨rfl, rfl, rfl, rfl⟩
  | cons r rest ih =>
    have hstep : (insertModuleRow a b S r).courseProgress = S.courseProgress ∧
        (insertModuleRow a b S r).sectionProgress = S.sectionProgress ∧
        (insertModuleRow a b S r).itemProgress = S.itemProgress ∧
        (insertModuleRow a b S r).totalProgress = S.totalProgress := by
      unfold insertModuleRow
      split <;> exact ⟨rfl, rfl, rfl, rfl⟩
    have hrest := ih (insertModuleRow a b S r)
    exact ⟨hrest.1.trans hstep.1, hrest.2.1.trans hstep.2.1,
      hrest.2.2.1.trans hstep.2.2.1, hrest.2.2.2.trans hstep.2.2.2⟩

theorem insertSectionRows_others (a b : String) (rows : List (String × ProgressEnum))
    (S : Store) :
    (insertSectionRows a b rows S).courseProgress = S.courseProgress ∧
    (insertSectionRows a b rows S).moduleProgress = S.moduleProgress ∧
    (insertSectionRows a b rows S).itemProgress = S.itemProgress ∧
    (insertSectionRows a b rows S).totalProgress = S.totalProgress := by
  induction rows generalizing S with
  | nil => exact ⟨rfl, rfl, rfl, rfl⟩
  | cons r rest ih =>
    have hstep : (insertSectionRow a b S r).courseProgress = S.courseProgress ∧
        (insertSectionRow a b S r).moduleProgress = S.moduleProgress ∧
        (insertSectionRow a b S r).itemProgress = S.itemProgress ∧
        (insertSectionRow a b S r).totalProgress = S.totalProgress := by
      unfold insertSectionRow
      split <;> exact ⟨rfl, rfl, rfl, rfl⟩
    have hrest := ih (insertSectionRow a b S r)
    exact ⟨hrest.1.trans hstep.1, hrest.2.1.trans hstep.2.1,
      hrest.2.2.1.trans hstep.2.2.1, hrest.2.2.2.trans hstep.2.2.2⟩

theorem insertItemRows_others (a b : String) (rows : List (String × ProgressEnum))
    (S : Store) :
    (insertItemRows a b rows S).courseProgress = S.courseProgress ∧
    (insertItemRows a b rows S).moduleProgress = S.moduleProgress ∧
    (insertItemRows a b rows S).sectionProgress = S.sectionProgress ∧
    (insertItemRows a b rows S).totalProgress = S.totalProgress := by
  induction rows generalizing S with
  | nil => exact ⟨rfl, rfl, rfl, rfl⟩
  | cons r rest ih =>
    have hstep : (insertItemRow a b S r).courseProgress = S.courseProgress ∧
        (insertItemRow a b S r).moduleProgress = S.moduleProgress ∧
        (insertItemRow a b S r).sectionProgress = S.sectionProgress ∧
        (insertItemRow a b S r).totalProgress = S.totalProgress := by
      unfold insertItemRow
      split <;> exact ⟨rfl, rfl, rfl, rfl⟩
    have hrest := ih (insertItemRow a b S r)
    exact ⟨hrest.1.trans hstep.1, hrest.2.1.trans hstep.2.1,
      hrest.2.2.1.trans hstep.2.2.1, hrest.2.2.2.trans hstep.2.2.2⟩

theorem upsertAdjacency_progress (S : Store) :
    (∀ r, (upsertModuleNext S r).courseProgress = S.courseProgress ∧
      (upsertModuleNext S r).moduleProgress = S.moduleProgress ∧
      (upsertModuleNext S r).sectionProgress = S.sectionProgress ∧
      (upsertModuleNext S r).itemProgress = S.itemProgress ∧
      (upsertModuleNext S r).totalProgress = S.totalProgress) ∧
    (∀ r, (upsertSectionNext S r).courseProgress = S.courseProgress ∧
      (upsertSectionNext S r).moduleProgress = S.moduleProgress ∧
      (upsertSectionNext S r).sectionProgress = S.sectionProgress ∧
      (upsertSectionNext S r).itemProgress = S.itemProgress ∧
      (upsertSectionNext S r).totalProgress = S.totalProgress) ∧
    (∀ r, (upsertSectionItemNext S r).courseProgress = S.courseProgress ∧
      (upsertSectionItemNext S r).moduleProgress = S.moduleProgress ∧
      (upsertSectionItemNext S r).sectionProgress = S.sectionProgress ∧
      (upsertSectionItemNext S r).itemProgress = S.itemProgress ∧
      (upsertSectionItemNext S r).totalProgress = S.totalProgress) := by
  refine ⟨fun r => ?_, fun r => ?_, fun r => ?_⟩ <;>
    first
      | (unfold upsertModuleNext; split <;> exact ⟨rfl, rfl, rfl, rfl, rfl⟩)
      | (unfold upsertSectionNext; split <;> exact ⟨rfl, rfl, rfl, rfl, rfl⟩)
      | (unfold upsertSectionItemNext; split <;> exact ⟨rfl, rfl, rfl, rfl, rfl⟩)

theorem foldModuleNext_progress (l : List ModuleNextRec) (S : Store) :
    (l.foldl upsertModuleNext S).courseProgress = S.courseProgress ∧
    (l.foldl upsertModuleNext S).moduleProgress = S.moduleProgress ∧
    (l.foldl upsertModuleNext S).sectionProgress = S.sectionProgress ∧
    (l.foldl upsertModuleNext S).itemProgress = S.itemProgress ∧
    (l.foldl upsertModuleNext S).totalProgress = S.totalProgress := by
  induction l generalizing S with
  | nil => exact ⟨rfl, rfl, rfl, rfl, rfl⟩
  | cons r rest ih =>
    have hstep := (upsertAdjacency_progress S).1 r
    have hrest := ih (upsertModuleNext S r)
    exact ⟨hrest.1.trans hstep.1, hrest.2.1.trans hstep.2.1,
      hrest.2.2.1.trans hstep.2.2.1, hrest.2.2.2.1.trans hstep.2.2.2.1,
      hrest.2.2.2.2.trans hstep.2.2.2.2⟩

theorem foldSectionNext_progress (l : List SectionNextRec) (S : Store) :
    (l.foldl upsertSectionNext S).courseProgress = S.courseProgress ∧
    (l.foldl upsertSectionNext S).moduleProgress = S.moduleProgress ∧
    (l.foldl upsertSectionNext S).sectionProgress = S.sectionProgress ∧
    (l.foldl upsertSectionNext S).itemProgress = S.itemProgress ∧
    (l.foldl upsertSectionNext S).totalProgress = S.totalProgress := by
  induction l generalizing S with
  | nil => exact ⟨rfl, rfl, rfl, rfl, rfl⟩
  | cons r rest ih =>
    have hstep := (upsertAdjacency_progress S).2.1 r
    have hrest := ih (upsertSectionNext S r)
    exact ⟨hrest.1.trans hstep.1, hrest.2.1.trans hstep.2.1,
      hrest.2.2.1.trans hstep.2.2.1, hrest.2.2.2.1.trans hstep.2.2.2.1,
      hrest.2.2.2.2.trans hstep.2.2.2.2⟩

theorem foldSectionItemNext_progress (l : List SectionItemNextRec) (S : Store) :
    (l.foldl upsertSectionItemNext S).courseProgress = S.courseProgress ∧
    (l.foldl upsertSectionItemNext S).moduleProgress = S.moduleProgress ∧
    (l.foldl upsertSectionItemNext S).sectionProgress = S.sectionProgress ∧
    (l.foldl upsertSectionItemNext S).itemProgress = S.itemProgress ∧
    (l.foldl upsertSectionItemNext S).totalProgress = S.totalProgress := by
  induction l generalizing S with
  | nil => exact ⟨rfl, rfl, rfl, rfl, rfl⟩
  | cons r rest ih =>
    have hstep := (upsertAdjacency_progress S).2.2 r
    have hrest := ih (upsertSectionItemNext S r)
    exact ⟨hrest.1.trans hstep.1, hrest.2.1.trans hstep.2.1,
      hrest.2.2.1.trans hstep.2.2.1, hrest.2.2.2.1.trans hstep.2.2.2.1,
      hrest.2.2.2.2.trans hstep.2.2.2.2⟩

theorem insertItemRow_lookup (stu ci : String) (S : Store) (r : String × ProgressEnum)
    (st' id ci' : String) :
    (insertItemRow stu ci S r).itemProgress st' id ci' =
      if S.itemProgress stu r.1 ci = none ∧ st' = stu ∧ id = r.1 ∧ ci' = ci then some r.2
      else S.itemProgress st' id ci' := by
  unfold insertItemRow
  by_cases hA : S.itemProgress stu r.1 ci = none
  · rw [if_pos hA]
    show (if st' = stu ∧ id = r.1 ∧ ci' = ci then some r.2 else S.itemProgress st' id ci') = _
    by_cases hB : st' = stu ∧ id = r.1 ∧ ci' = ci
    · rw [if_pos hB, if_pos ⟨hA, hB⟩]
    · rw [if_neg hB, if_neg (fun h => hB h.2)]
  · rw [if_neg hA, if_neg (fun h => hA h.1)]

/-- Effect of the skip-duplicates item insert fold on a lookup: points outside
the `(studentId, ·, courseInstanceId)` slice are untouched; inside the slice a
present value survives and an absent one becomes the first prepared row with
that key. -/
theorem insertItemRows_lookup (stu ci : String) (rows : List (String × ProgressEnum))
    (S : Store) (st' id ci' : String) :
    (insertItemRows stu ci rows S).itemProgress st' id ci' =
      if st' = stu ∧ ci' = ci then
        (match S.itemProgress stu id ci with
         | some v => some v
         | none => firstWin rows id)
      else S.itemProgress st' id ci' := by
  induction rows generalizing S with
  | nil =>
    by_cases hB : st' = stu ∧ ci' = ci
    · rw [if_pos hB]
      show S.itemProgress st' id ci' = _
      rw [hB.1, hB.2]
      cases hv : S.itemProgress stu id ci <;> simp [hv, firstWin_nil]
    · rw [if_neg hB]
      rfl
  | cons r rest ih =>
    obtain ⟨k, p⟩ := r
    rw [show insertItemRows stu ci ((k, p) :: rest) S =
      insertItemRows stu ci rest (insertItemRow stu ci S (k, p)) from rfl]
    rw [ih]
    by_cases hB : st' = stu ∧ ci' = ci
    · rw [if_pos hB, if_pos hB]
      have hone := insertItemRow_lookup stu ci S (k, p) stu id ci
      by_cases hA : S.itemProgress stu k ci = none
      · by_cases hk : id = k
        · subst hk
          rw [hone, if_pos ⟨hA, rfl, rfl, rfl⟩, hA, firstWin_cons_self]
        · rw [hone, if_neg (fun h => hk h.2.2.1), firstWin_cons_ne k id p rest hk]
      · by_cases hk : id = k
        · subst hk
          rw [hone, if_neg (fun h => hA h.1)]
          cases hv : S.itemProgress stu id ci
          · exact absurd hv hA
          · simp [hv]
        · rw [hone, if_neg (fun h => hk h.2.2.1), firstWin_cons_ne k id p rest hk]
    · rw [if_neg hB, if_neg hB]
      rw [insertItemRow_lookup stu ci S (k, p) st' id ci']
      rw [if_neg (fun h => hB ⟨h.2.1, h.2.2.2⟩)]

theorem insertModuleRow_lookup (stu ci : String) (S : Store) (r : String × ProgressEnum)
    (st' id ci' : String) :
    (insertModuleRow stu ci S r).moduleProgress st' id ci' =
      if S.moduleProgress stu r.1 ci = none ∧ st' = stu ∧ id = r.1 ∧ ci' = ci then some r.2
      else S.moduleProgress st' id ci' := by
  unfold insertModuleRow
  by_cases hA : S.moduleProgress stu r.1 ci = none
  · rw [if_pos hA]
    show (if st' = stu ∧ id = r.1 ∧ ci' = ci then some r.2 else S.moduleProgress st' id ci') = _
    by_cases hB : st' = stu ∧ id = r.1 ∧ ci' = ci
    · rw [if_pos hB, if_pos ⟨hA, hB⟩]
    · rw [if_neg hB, if_neg (fun h => hB h.2)]
  · rw [if_neg hA, if_neg (fun h => hA h.1)]

/-- Module-level analogue of `insertItemRows_lookup`. -/
theorem insertModuleRows_lookup (stu ci : String) (rows : List (String × ProgressEnum))
    (S : Store) (st' id ci' : String) :
    (insertModuleRows stu ci rows S).moduleProgress st' id ci' =
      if st' = stu ∧ ci' = ci then
        (match S.moduleProgress stu id ci with
         | some v => some v
         | none => firstWin rows id)
      else S.moduleProgress st' id ci' := by
  induction rows generalizing S with
  | nil =>
    by_cases hB : st' = stu ∧ ci' = ci
    · rw [if_pos hB]
      show S.moduleProgress st' id ci' = _
      rw [hB.1, hB.2]
      cases hv : S.moduleProgress stu id ci <;> simp [hv, firstWin_nil]
    · rw [if_neg hB]
      rfl
  | cons r rest ih =>
    obtain ⟨k, p⟩ := r
    rw [show insertModuleRows stu ci ((k, p) :: rest) S =
      insertModuleRows stu ci rest (insertModuleRow stu ci S (k, p)) from rfl]
    rw [ih]
    by_cases hB : st' = stu ∧ ci' = ci
    · rw [if_pos hB, if_pos hB]
      have hone := insertModuleRow_lookup stu ci S (k, p) stu id ci
      by_cases hA : S.moduleProgress stu k ci = none
      · by_cases hk : id = k
        · subst hk
          rw [hone, if_pos ⟨hA, rfl, rfl, rfl⟩, hA, firstWin_cons_self]
        · rw [hone, if_neg (fun h => hk h.2.2.1), firstWin_cons_ne k id p rest hk]
      · by_cases hk : id = k
        · subst hk
          rw [hone, if_neg (fun h => hA h.1)]
          cases hv : S.moduleProgress stu id ci
          · exact absurd hv hA
          · simp [hv]
        · rw [hone, if_neg (fun h => hk h.2.2.1), firstWin_cons_ne k id p rest hk]
    · rw [if_neg hB, if_neg hB]
      rw [insertModuleRow_lookup stu ci S (k, p) st' id ci']
      rw [if_neg (fun h => hB ⟨h.2.1, h.2.2.2⟩)]

theorem insertSectionRow_lookup (stu ci : String) (S : Store) (r : String × ProgressEnum)
    (st' id ci' : String) :
    (insertSectionRow stu ci S r).sectionProgress st' id ci' =
      if S.sectionProgress stu r.1 ci = none ∧ st' = stu ∧ id = r.1 ∧ ci' = ci then some r.2
      else S.sectionProgress st' id ci' := by
  unfold insertSectionRow
  by_cases hA : S.sectionProgress stu r.1 ci = none
  · rw [if_pos hA]
    show (if st' = stu ∧ id = r.1 ∧ ci' = ci then some r.2 else S.sectionProgress st' id ci') = _
    by_cases hB : st' = stu ∧ id = r.1 ∧ ci' = ci
    · rw [if_pos hB, if_pos ⟨hA, hB⟩]
    · rw [if_neg hB, if_neg (fun h => hB h.2)]
  · rw [if_neg hA, if_neg (fun h => hA h.1)]

/-- Section-level analogue of `insertItemRows_lookup`. -/
theorem insertSectionRows_lookup (stu ci : String) (rows : List (String × ProgressEnum))
    (S : Store) (st' id ci' : String) :
    (insertSectionRows stu ci rows S).sectionProgress st' id ci' =
      if st' = stu ∧ ci' = ci then
        (match S.sectionProgress stu id ci with
         | some v => some v
         | none => firstWin rows id)
      else S.sectionProgress st' id ci' := by
  induction rows generalizing S with
  | nil =>
    by_cases hB : st' = stu ∧ ci' = ci
    · rw [if_pos hB]
      show S.sectionProgress st' id ci' = _
      rw [hB.1, hB.2]
      cases hv : S.sectionProgress stu id ci <;> simp [hv, firstWin_nil]
    · rw [if_neg hB]
      rfl
  | cons r rest ih =>
    obtain ⟨k, p⟩ := r
    rw [show insertSectionRows stu ci ((k, p) :: rest) S =
      insertSectionRows stu ci rest (insertSectionRow stu ci S (k, p)) from rfl]
    rw [ih]
    by_cases hB : st' = stu ∧ ci' = ci
    · rw [if_pos hB, if_pos hB]
      have hone := insertSectionRow_lookup stu ci S (k, p) stu id ci
      by_cases hA : S.sectionProgress stu k ci = none
      · by_cases hk : id = k
        · subst hk
          rw [hone, if_pos ⟨hA, rfl, rfl, rfl⟩, hA, firstWin_cons_self]
        · rw [hone, if_neg (fun h => hk h.2.2.1), firstWin_cons_ne k id p rest hk]
      · by_cases hk : id = k
        · subst hk
          rw [hone, if_neg (fun h => hA h.1)]
          cases hv : S.sectionProgress stu id ci
          · exact absurd hv hA
          · simp [hv]
        · rw [hone, if_neg (fun h => hk h.2.2.1), firstWin_cons_ne k id p rest hk]
    · rw [if_neg hB, if_neg hB]
      rw [insertSectionRow_lookup stu ci S (k, p) st' id ci']
      rw [if_neg (fun h => hB ⟨h.2.1, h.2.2.2⟩)]

/-! Effect of one student's queued operations on each progress field. -/

theorem initStudent_total (s0 : Store) (ci : String) (mods : List Module) (nd : NextData)
    (S : Store) (t : Nat) (stu : String) :
    (initStudent s0 ci mods nd (S, t) stu).1.totalProgress = fun st' ci' =>
      if st' = stu ∧ ci' = ci then some 0 else S.totalProgress st' ci' := by
  simp only [initStudent]
  rw [(foldSectionItemNext_progress _ _).2.2.2.2, (foldSectionNext_progress _ _).2.2.2.2,
    (foldModuleNext_progress _ _).2.2.2.2, (insertItemRows_others _ _ _ _).2.2.2,
    (insertSectionRows_others _ _ _ _).2.2.2, (insertModuleRows_others _ _ _ _).2.2.2,
    (upsertCourseRow_others _ _ _).2.2.2]
  rfl

theorem initStudent_course (s0 : Store) (ci : String) (mods : List Module) (nd : NextData)
    (S : Store) (t : Nat) (stu : String) :
    (initStudent s0 ci mods nd (S, t) stu).1.courseProgress = fun st' ci' =>
      match S.courseProgress stu ci with
      | some _ => S.courseProgress st' ci'
      | none =>
          if st' = stu ∧ ci' = ci then some ProgressEnum.IN_PROGRESS
          else S.courseProgress st' ci' := by
  simp only [initStudent]
  rw [(foldSectionItemNext_progress _ _).1, (foldSectionNext_progress _ _).1,
    (foldModuleNext_progress _ _).1, (insertItemRows_others _ _ _ _).1,
    (insertSectionRows_others _ _ _ _).1, (insertModuleRows_others _ _ _ _).1,
    upsertCourseRow_course]
  rfl

theorem initStudent_module (s0 : Store) (ci : String) (mods : List Module) (nd : NextData)
    (S : Store) (t : Nat) (stu st' id ci' : String) :
    (initStudent s0 ci mods nd (S, t) stu).1.moduleProgress st' id ci' =
      if st' = stu ∧ ci' = ci then
        (match S.moduleProgress stu id ci with
         | some v => some v
         | none => firstWin (moduleRowsOf s0 stu ci true mods).1 id)
      else S.moduleProgress st' id ci' := by
  simp only [initStudent]
  rw [(foldSectionItemNext_progress _ _).2.1, (foldSectionNext_progress _ _).2.1,
    (foldModuleNext_progress _ _).2.1, (insertItemRows_others _ _ _ _).2.1,
    (insertSectionRows_others _ _ _ _).2.1, insertModuleRows_lookup,
    (upsertCourseRow_others _ _ _).1, (upsertTotalProgress_others _ _ _).2.1]

theorem initStudent_section (s0 : Store) (ci : String) (mods : List Module) (nd : NextData)
    (S : Store) (t : Nat) (stu st' id ci' : String) :
    (initStudent s0 ci mods nd (S, t) stu).1.sectionProgress st' id ci' =
      if st' = stu ∧ ci' = ci then
        (match S.sectionProgress stu id ci with
         | some v => some v
         | none => firstWin (moduleRowsOf s0 stu ci true mods).2.1 id)
      else S.sectionProgress st' id ci' := by
  simp only [initStudent]
  rw [(foldSectionItemNext_progress _ _).2.2.1, (foldSectionNext_progress _ _).2.2.1,
    (foldModuleNext_progress _ _).2.2.1, (insertItemRows_others _ _ _ _).2.2.1,
    insertSectionRows_lookup, (insertModuleRows_others _ _ _ _).2.1,
    (upsertCourseRow_others _ _ _).2.1, (upsertTotalProgress_others _ _ _).2.2.1]

theorem initStudent_item (s0 : Store) (ci : String) (mods : List Module) (nd : NextData)
    (S : Store) (t : Nat) (stu st' id ci' : String) :
    (initStudent s0 ci mods nd (S, t) stu).1.itemProgress st' id ci' =
      if st' = stu ∧ ci' = ci then
        (match S.itemProgress stu id ci with
         | some v => some v
         | none => firstWin (moduleRowsOf s0 stu ci true mods).2.2 id)
      else S.itemProgress st' id ci' := by
  simp only [initStudent]
  rw [(foldSectionItemNext_progress _ _).2.2.2.1, (foldSectionNext_progress _ _).2.2.2.1,
    (foldModuleNext_progress _ _).2.2.2.1, insertItemRows_lookup,
    (insertSectionRows_others _ _ _ _).2.2.1, (insertModuleRows_others _ _ _ _).2.2.1,
    (upsertCourseRow_others _ _ _).2.2.1, (upsertTotalProgress_others _ _ _).2.2.2]

/-! Shape of the prepared rows: keys, and which rows are INCOMPLETE. -/

theorem itemRowsOf_keys (sp : ProgressEnum) (b : Bool) (l : List SectionItem) :
    (itemRowsOf sp b l).map (·.1) = l.map (·.sectionItemId) := by
  induction l generalizing b with
  | nil => rfl
  | cons it rest ih => simp [itemRowsOf, ih]

theorem sectionRowsOf_keys (mp : ProgressEnum) (b : Bool) (l : List Section) :
    (sectionRowsOf mp b l).1.map (·.1) = l.map (·.sectionId) ∧
    (sectionRowsOf mp b l).2.map (·.1) =
      l.flatMap (fun sec => sec.sectionItems.map (·.sectionItemId)) := by
  induction l generalizing b with
  | nil => exact ⟨rfl, rfl⟩
  | cons sec rest ih =>
    refine ⟨?_, ?_⟩ <;>
      simp [sectionRowsOf, itemRowsOf_keys, (ih true).1, (ih true).2]

theorem moduleRowsOf_keys (s0 : Store) (stu ci : String) (b : Bool) (ms : List Module) :
    (moduleRowsOf s0 stu ci b ms).1.map (·.1) = ms.map (·.moduleId) ∧
    (moduleRowsOf s0 stu ci b ms).2.1.map (·.1) =
      ms.flatMap (fun m => m.sections.map (·.sectionId)) ∧
    (moduleRowsOf s0 stu ci b ms).2.2.map (·.1) =
      ms.flatMap (fun m => m.sections.flatMap
        (fun sec => sec.sectionItems.map (·.sectionItemId))) := by
  induction ms generalizing b with
  | nil => exact ⟨rfl, rfl, rfl⟩
  | cons m rest ih =>
    have hb := ih (s0.moduleProgress stu m.moduleId ci == some ProgressEnum.COMPLETE)
    refine ⟨?_, ?_, ?_⟩ <;>
      simp [moduleRowsOf, sectionRowsOf_keys, hb.1, hb.2.1, hb.2.2]

theorem itemRowsOf_incomplete (sp : ProgressEnum) (b : Bool) (l : List SectionItem)
    (h : sp ≠ ProgressEnum.IN_PROGRESS ∨ b = true) :
    ∀ r ∈ itemRowsOf sp b l, r.2 = ProgressEnum.INCOMPLETE := by
  induction l generalizing b with
  | nil => intro r hr; simp [itemRowsOf] at hr
  | cons it rest ih =>
    intro r hr
    simp only [itemRowsOf, List.mem_cons] at hr
    rcases hr with hr | hr
    · have hcond : ¬(sp = ProgressEnum.IN_PROGRESS ∧ ¬b = true) := by
        rcases h with h | h
        · exact fun hc => h hc.1
        · exact fun hc => hc.2 h
      rw [hr]
      rw [if_neg hcond]
    · exact ih true (Or.inr rfl) r hr

theorem sectionRowsOf_incomplete (mp : ProgressEnum) (b : Bool) (l : List Section)
    (h : mp ≠ ProgressEnum.IN_PROGRESS ∨ b = true) :
    (∀ r ∈ (sectionRowsOf mp b l).1, r.2 = ProgressEnum.INCOMPLETE) ∧
    (∀ r ∈ (sectionRowsOf mp b l).2, r.2 = ProgressEnum.INCOMPLETE) := by
  induction l generalizing b with
  | nil => exact ⟨fun r hr => by simp [sectionRowsOf] at hr,
      fun r hr => by simp [sectionRowsOf] at hr⟩
  | cons sec rest ih =>
    have hcond : ¬(mp = ProgressEnum.IN_PROGRESS ∧ ¬b = true) := by
      rcases h with h | h
      · exact fun hc => h hc.1
      · exact fun hc => hc.2 h
    have hsp : (if mp = ProgressEnum.IN_PROGRESS ∧ ¬b then ProgressEnum.IN_PROGRESS
        else ProgressEnum.INCOMPLETE) = ProgressEnum.INCOMPLETE := by
      rw [if_neg (by simpa using hcond)]
    constructor
    · intro r hr
      simp only [sectionRowsOf, List.mem_cons] at hr
      rcases hr with hr | hr
      · rw [hr, hsp]
      · exact (ih true (Or.inr rfl)).1 r hr
    · intro r hr
      simp only [sectionRowsOf, List.mem_append] at hr
      rcases hr with hr | hr
      · rw [hsp] at hr
        exact itemRowsOf_incomplete ProgressEnum.INCOMPLETE false sec.sectionItems
          (Or.inl (fun hc => ProgressEnum.noConfusion hc)) r hr
      · exact (ih true (Or.inr rfl)).2 r hr

theorem moduleRowsOf_incomplete (s0 : Store) (stu ci : String) (ms : List Module)
    (hfresh : ∀ m ∈ ms, s0.moduleProgress stu m.moduleId ci ≠ some ProgressEnum.COMPLETE) :
    (∀ r ∈ (moduleRowsOf s0 stu ci false ms).1, r.2 = ProgressEnum.INCOMPLETE) ∧
    (∀ r ∈ (moduleRowsOf s0 stu ci false ms).2.1, r.2 = ProgressEnum.INCOMPLETE) ∧
    (∀ r ∈ (moduleRowsOf s0 stu ci false ms).2.2, r.2 = ProgressEnum.INCOMPLETE) := by
  induction ms with
  | nil =>
    exact ⟨fun r hr => by simp [moduleRowsOf] at hr,
      fun r hr => by simp [moduleRowsOf] at hr,
      fun r hr => by simp [moduleRowsOf] at hr⟩
  | cons m rest ih =>
    have hflag : (s0.moduleProgress stu m.moduleId ci == some ProgressEnum.COMPLETE) = false :=
      beq_eq_false_iff_ne.mpr (hfresh m (by simp))
    have hrest := ih (fun x hx => hfresh x (by simp [hx]))
    have hsec := sectionRowsOf_incomplete ProgressEnum.INCOMPLETE false m.sections
      (Or.inl (fun hc => ProgressEnum.noConfusion hc))
    refine ⟨?_, ?_, ?_⟩
    · intro r hr
      simp only [moduleRowsOf, List.mem_cons] at hr
      rcases hr with hr | hr
      · simp [hr]
      · rw [hflag] at hr
        exact hrest.1 r hr
    · intro r hr
      simp only [moduleRowsOf, List.mem_append] at hr
      rw [hflag] at hr
      rcases hr with hr | hr
      · exact hsec.1 r hr
      · exact hrest.2.1 r hr
    · intro r hr
      simp only [moduleRowsOf, List.mem_append] at hr
      rw [hflag] at hr
      rcases hr with hr | hr
      · exact hsec.2 r hr
      · exact hrest.2.2 r hr

theorem itemRowsOf_head (it : SectionItem) (rest : List SectionItem) :
    itemRowsOf ProgressEnum.IN_PROGRESS false (it :: rest) =
      (it.sectionItemId, ProgressEnum.IN_PROGRESS) ::
        itemRowsOf ProgressEnum.IN_PROGRESS true rest := by
  simp [itemRowsOf]

theorem sectionRowsOf_head (sec : Section) (rest : List Section) :
    (sectionRowsOf ProgressEnum.IN_PROGRESS false (sec :: rest)).1 =
      (sec.sectionId, ProgressEnum.IN_PROGRESS) ::
        (sectionRowsOf ProgressEnum.IN_PROGRESS true rest).1 ∧
    (sectionRowsOf ProgressEnum.IN_PROGRESS false (sec :: rest)).2 =
      itemRowsOf ProgressEnum.IN_PROGRESS false sec.sectionItems ++
        (sectionRowsOf ProgressEnum.IN_PROGRESS true rest).2 := by
  constructor <;> simp [sectionRowsOf]

theorem moduleRowsOf_head (s0 : Store) (stu ci : String) (m : Module) (rest : List Module)
    (hm : s0.moduleProgress stu m.moduleId ci ≠ some ProgressEnum.COMPLETE) :
    (moduleRowsOf s0 stu ci true (m :: rest)).1 =
      (m.moduleId, ProgressEnum.IN_PROGRESS) :: (moduleRowsOf s0 stu ci false rest).1 ∧
    (moduleRowsOf s0 stu ci true (m :: rest)).2.1 =
      (sectionRowsOf ProgressEnum.IN_PROGRESS false m.sections).1 ++
        (moduleRowsOf s0 stu ci false rest).2.1 ∧
    (moduleRowsOf s0 stu ci true (m :: rest)).2.2 =
      (sectionRowsOf ProgressEnum.IN_PROGRESS false m.sections).2 ++
        (moduleRowsOf s0 stu ci false rest).2.2 := by
  have hflag : (s0.moduleProgress stu m.moduleId ci == some ProgressEnum.COMPLETE) = false :=
    beq_eq_false_iff_ne.mpr hm
  refine ⟨?_, ?_, ?_⟩ <;> simp [moduleRowsOf, hflag]

theorem firstWin_head_tail (k : String) (tail : List (String × ProgressEnum)) (id : String)
    (htail : ∀ r ∈ tail, r.2 = ProgressEnum.INCOMPLETE)
    (hid : id = k ∨ id ∈ tail.map (·.1)) :
    firstWin ((k, ProgressEnum.IN_PROGRESS) :: tail) id =
      some (if id = k then ProgressEnum.IN_PROGRESS else ProgressEnum.INCOMPLETE) := by
  by_cases h : id = k
  · subst h
    rw [firstWin_cons_self, if_pos rfl]
  · rw [firstWin_cons_ne _ _ _ _ h, if_neg h]
    exact firstWin_mem_const tail ProgressEnum.INCOMPLETE id htail (hid.resolve_left h)

/-- The values a fresh student's slice receives, per level: the first prepared
row wins, and for a store with no prior module rows the prepared rows are the
head entity IN_PROGRESS and everything else INCOMPLETE. -/
theorem firstWin_rows_fresh (s0 : Store) (stu ci : String)
    (m0 : Module) (mrest : List Module) (sec0 : Section) (srest : List Section)
    (it0 : SectionItem) (irest : List SectionItem)
    (hsec : m0.sections = sec0 :: srest)
    (hit : sec0.sectionItems = it0 :: irest)
    (hfresh : ∀ id, s0.moduleProgress stu id ci = none) :
    (∀ id ∈ (m0 :: mrest).map (·.moduleId),
      firstWin (moduleRowsOf s0 stu ci true (m0 :: mrest)).1 id =
        some (if id = m0.moduleId then ProgressEnum.IN_PROGRESS
          else ProgressEnum.INCOMPLETE)) ∧
    (∀ id ∈ (m0 :: mrest).flatMap (fun m => m.sections.map (·.sectionId)),
      firstWin (moduleRowsOf s0 stu ci true (m0 :: mrest)).2.1 id =
        some (if id = sec0.sectionId then ProgressEnum.IN_PROGRESS
          else ProgressEnum.INCOMPLETE)) ∧
    (∀ id ∈ (m0 :: mrest).flatMap
        (fun m => m.sections.flatMap (fun s => s.sectionItems.map (·.sectionItemId))),
      firstWin (moduleRowsOf s0 stu ci true (m0 :: mrest)).2.2 id =
        some (if id = it0.sectionItemId then ProgressEnum.IN_PROGRESS
          else ProgressEnum.INCOMPLETE)) := by
  have hm0 : s0.moduleProgress stu m0.moduleId ci ≠ some ProgressEnum.COMPLETE := by
    rw [hfresh]
    exact fun h => Option.noConfusion h
  have hfresh' : ∀ x ∈ mrest, s0.moduleProgress stu x.moduleId ci ≠
      some ProgressEnum.COMPLETE := by
    intro x _
    rw [hfresh]
    exact fun h => Option.noConfusion h
  have hhead := moduleRowsOf_head s0 stu ci m0 mrest hm0
  have hrest := moduleRowsOf_incomplete s0 stu ci mrest hfresh'
  have hrkeys := moduleRowsOf_keys s0 stu ci false mrest
  refine ⟨?_, ?_, ?_⟩
  · intro id hid
    rw [hhead.1]
    refine firstWin_head_tail _ _ _ hrest.1 ?_
    rw [hrkeys.1]
    simpa using hid
  · intro id hid
    rw [hhead.2.1, hsec, (sectionRowsOf_head sec0 srest).1, List.cons_append]
    have htail : ∀ r ∈ (sectionRowsOf ProgressEnum.IN_PROGRESS true srest).1 ++
        (moduleRowsOf s0 stu ci false mrest).2.1, r.2 = ProgressEnum.INCOMPLETE := by
      intro r hr
      rcases List.mem_append.mp hr with hr | hr
      · exact (sectionRowsOf_incomplete _ true srest (Or.inr rfl)).1 r hr
      · exact hrest.2.1 r hr
    refine firstWin_head_tail _ _ _ htail ?_
    rw [List.map_append, (sectionRowsOf_keys ProgressEnum.IN_PROGRESS true srest).1,
      hrkeys.2.1]
    simp only [List.flatMap_cons, List.mem_append, hsec, List.map_cons,
      List.mem_cons] at hid ⊢
    tauto
  · intro id hid
    rw [hhead.2.2, hsec, (sectionRowsOf_head sec0 srest).2, hit, itemRowsOf_head,
      List.cons_append, List.cons_append]
    have htail : ∀ r ∈ itemRowsOf ProgressEnum.IN_PROGRESS true irest ++
        (sectionRowsOf ProgressEnum.IN_PROGRESS true srest).2 ++
        (moduleRowsOf s0 stu ci false mrest).2.2, r.2 = ProgressEnum.INCOMPLETE := by
      intro r hr
      rcases List.mem_append.mp hr with hr | hr
      · rcases List.mem_append.mp hr with hr | hr
        · exact itemRowsOf_incomplete _ true irest (Or.inr rfl) r hr
        · exact (sectionRowsOf_incomplete _ true srest (Or.inr rfl)).2 r hr
      · exact hrest.2.2 r hr
    refine firstWin_head_tail _ _ _ htail ?_
    rw [List.map_append, List.map_append, itemRowsOf_keys,
      (sectionRowsOf_keys ProgressEnum.IN_PROGRESS true srest).2, hrkeys.2.2]
    simp only [List.flatMap_cons, List.mem_append, hsec, hit, List.flatMap_cons,
      List.map_cons, List.mem_cons] at hid ⊢
    tauto

/-- A student's fully-initialized slice is stable under processing any further
students: re-processing the same student re-inserts the same prepared rows
(all reads come from the call-start store `s0`), which all skip, and other
students only touch their own slices. -/
theorem initStudents_fold_inv (s0 : Store) (ci : String) (mods : List Module)
    (nd : NextData) (stu : String) :
    ∀ (L : List String) (S : Store) (t : Nat),
      (∀ id, S.moduleProgress stu id ci =
        firstWin (moduleRowsOf s0 stu ci true mods).1 id) →
      (∀ id, S.sectionProgress stu id ci =
        firstWin (moduleRowsOf s0 stu ci true mods).2.1 id) →
      (∀ id, S.itemProgress stu id ci =
        firstWin (moduleRowsOf s0 stu ci true mods).2.2 id) →
      S.courseProgress stu ci = some ProgressEnum.IN_PROGRESS →
      S.totalProgress stu ci = some 0 →
      (∀ id, (L.foldl (initStudent s0 ci mods nd) (S, t)).1.moduleProgress stu id ci =
        firstWin (moduleRowsOf s0 stu ci true mods).1 id) ∧
      (∀ id, (L.foldl (initStudent s0 ci mods nd) (S, t)).1.sectionProgress stu id ci =
        firstWin (moduleRowsOf s0 stu ci true mods).2.1 id) ∧
      (∀ id, (L.foldl (initStudent s0 ci mods nd) (S, t)).1.itemProgress stu id ci =
        firstWin (moduleRowsOf s0 stu ci true mods).2.2 id) ∧
      (L.foldl (initStudent s0 ci mods nd) (S, t)).1.courseProgress stu ci =
        some ProgressEnum.IN_PROGRESS ∧
      (L.foldl (initStudent s0 ci mods nd) (S, t)).1.totalProgress stu ci = some 0 := by
  intro L
  induction L with
  | nil => exact fun S t h1 h2 h3 h4 h5 => ⟨h1, h2, h3, h4, h5⟩
  | cons st' rest ih =>
    intro S t h1 h2 h3 h4 h5
    rw [List.foldl_cons,
      show initStudent s0 ci mods nd (S, t) st' =
        ((initStudent s0 ci mods nd (S, t) st').1,
         (initStudent s0 ci mods nd (S, t) st').2) from rfl]
    refine ih _ _ ?_ ?_ ?_ ?_ ?_
    · intro id
      rw [initStudent_module]
      by_cases hstu : stu = st'
      · subst hstu
        rw [if_pos ⟨rfl, rfl⟩, h1 id]
        cases hw : firstWin (moduleRowsOf s0 stu ci true mods).1 id <;> simp [hw]
      · rw [if_neg (fun h => hstu h.1)]
        exact h1 id
    · intro id
      rw [initStudent_section]
      by_cases hstu : stu = st'
      · subst hstu
        rw [if_pos ⟨rfl, rfl⟩, h2 id]
        cases hw : firstWin (moduleRowsOf s0 stu ci true mods).2.1 id <;> simp [hw]
      · rw [if_neg (fun h => hstu h.1)]
        exact h2 id
    · intro id
      rw [initStudent_item]
      by_cases hstu : stu = st'
      · subst hstu
        rw [if_pos ⟨rfl, rfl⟩, h3 id]
        cases hw : firstWin (moduleRowsOf s0 stu ci true mods).2.2 id <;> simp [hw]
      · rw [if_neg (fun h => hstu h.1)]
        exact h3 id
    · simp only [initStudent_course]
      by_cases hstu : stu = st'
      · subst hstu
        rw [h4]
      · cases hc : S.courseProgress st' ci
        · simp only [hc]
          rw [if_neg (fun h => hstu h.1)]
          exact h4
        · simp only [hc]
          exact h4
    · simp only [initStudent_total]
      by_cases hstu : stu = st'
      · rw [if_pos ⟨hstu, trivial⟩]
      · rw [if_neg (fun h => hstu h.1)]
        exact h5

/-- Processing the student list from a store in which `stu`'s slice is empty:
once the list reaches `stu`, the slice becomes exactly the first-win of the
prepared rows, the course row IN_PROGRESS, and the aggregate 0. -/
theorem initStudents_fold_fresh (s0 : Store) (ci : String) (mods : List Module)
    (nd : NextData) (stu : String) :
    ∀ (L : List String) (S : Store) (t : Nat),
      stu ∈ L →
      (∀ id, S.moduleProgress stu id ci = none) →
      (∀ id, S.sectionProgress stu id ci = none) →
      (∀ id, S.itemProgress stu id ci = none) →
      S.courseProgress stu ci = none →
      (∀ id, (L.foldl (initStudent s0 ci mods nd) (S, t)).1.moduleProgress stu id ci =
        firstWin (moduleRowsOf s0 stu ci true mods).1 id) ∧
      (∀ id, (L.foldl (initStudent s0 ci mods nd) (S, t)).1.sectionProgress stu id ci =
        firstWin (moduleRowsOf s0 stu ci true mods).2.1 id) ∧
      (∀ id, (L.foldl (initStudent s0 ci mods nd) (S, t)).1.itemProgress stu id ci =
        firstWin (moduleRowsOf s0 stu ci true mods).2.2 id) ∧
      (L.foldl (initStudent s0 ci mods nd) (S, t)).1.courseProgress stu ci =
        some ProgressEnum.IN_PROGRESS ∧
      (L.foldl (initStudent s0 ci mods nd) (S, t)).1.totalProgress stu ci = some 0 := by
  intro L
  induction L with
  | nil => intro S t hmem; simp at hmem
  | cons st' rest ih =>
    intro S t hmem h1 h2 h3 h4
    rw [List.foldl_cons,
      show initStudent s0 ci mods nd (S, t) st' =
        ((initStudent s0 ci mods nd (S, t) st').1,
         (initStudent s0 ci mods nd (S, t) st').2) from rfl]
    by_cases hstu : stu = st'
    · subst hstu
      refine initStudents_fold_inv s0 ci mods nd stu rest _ _ ?_ ?_ ?_ ?_ ?_
      · intro id
        rw [initStudent_module, if_pos ⟨rfl, rfl⟩, h1 id]
      · intro id
        rw [initStudent_section, if_pos ⟨rfl, rfl⟩, h2 id]
      · intro id
        rw [initStudent_item, if_pos ⟨rfl, rfl⟩, h3 id]
      · simp [initStudent_course, h4]
      · simp [initStudent_total]
    · have hmem' : stu ∈ rest := by
        rcases List.mem_cons.mp hmem with h | h
        · exact absurd h hstu
        · exact h
      refine ih _ _ hmem' ?_ ?_ ?_ ?_
      · intro id
        rw [initStudent_module, if_neg (fun h => hstu h.1)]
        exact h1 id
      · intro id
        rw [initStudent_section, if_neg (fun h => hstu h.1)]
        exact h2 id
      · intro id
        rw [initStudent_item, if_neg (fun h => hstu h.1)]
        exact h3 id
      · simp only [initStudent_course]
        cases hc : S.courseProgress st' ci
        · simp only [hc]
          rw [if_neg (fun h => hstu h.1)]
          exact h4
        · simp only [hc]
          exact h4

/-- Curriculum for the C3 counterexample: modules arrive in reverse sequence
order (`m2` with sequence 2 first, `m1` with sequence 1 second). -/
def c3Data : CourseProgressData :=
  { courseInstanceId := "c", studentIds := ["stu"],
    modules :=
      [ ⟨"m2", 2, [⟨"s2", 1, [⟨"i2", 1⟩]⟩]⟩,
        ⟨"m1", 1, [⟨"s1", 1, [⟨"i1", 1⟩]⟩]⟩ ] }

/-- COUNTEREXAMPLE to C3 as stated.  The claim says the unique IN_PROGRESS
item after initialization is the first-chain leaf through the FIRST MODULE BY
SEQUENCE — in `c3Data` that is `m1`'s item `i1`.  But the initializer walks
the modules in input array order (`extractAllIds` sorts only a shallow copy of
the top-level array), so `m2`'s item `i2` is IN_PROGRESS and `i1`, `m1` end up
INCOMPLETE. -/
theorem initialize_fresh_counterexample :
    ((initializeStudentProgress emptyStore c3Data).1.itemProgress "stu" "i2" "c" =
      some ProgressEnum.IN_PROGRESS) ∧
    ((initializeStudentProgress emptyStore c3Data).1.itemProgress "stu" "i1" "c" =
      some ProgressEnum.INCOMPLETE) ∧
    ((initializeStudentProgress emptyStore c3Data).1.moduleProgress "stu" "m1" "c" =
      some ProgressEnum.INCOMPLETE) ∧
    (c3Data.modules.map (fun m => (m.moduleId, m.sequence)) = [("m2", 2), ("m1", 1)]) :=
  ⟨rfl, rfl, rfl, rfl⟩

/-- CLAIM C3 as amended.  After `initializeStudentProgress` over a store with
no prior progress rows for a listed student, that student has exactly one
IN_PROGRESS section item: the first item (by sequence) of the first section
(by sequence) of the FIRST MODULE IN INPUT ARRAY ORDER (not sequence order) —
`m0 :: mrest` is the post-`extractAllIds` module list, whose inner lists are
sequence-sorted but whose top-level order is the input order.  That item's
section and module and the course row are IN_PROGRESS, every other module,
section and item row is INCOMPLETE, and TotalProgress is 0. -/
theorem initialize_fresh_store (s : Store) (cd : CourseProgressData) (stu : String)
    (m0 : Module) (mrest : List Module) (sec0 : Section) (srest : List Section)
    (it0 : SectionItem) (irest : List SectionItem)
    (hstu : stu ∈ cd.studentIds)
    (hmods : (extractAllIds cd).2.modules = m0 :: mrest)
    (hsec : m0.sections = sec0 :: srest)
    (hit : sec0.sectionItems = it0 :: irest)
    (hfM : ∀ id, s.moduleProgress stu id cd.courseInstanceId = none)
    (hfS : ∀ id, s.sectionProgress stu id cd.courseInstanceId = none)
    (hfI : ∀ id, s.itemProgress stu id cd.courseInstanceId = none)
    (hfC : s.courseProgress stu cd.courseInstanceId = none) :
    (∀ id ∈ (extractAllIds cd).2.modules.flatMap
        (fun m => m.sections.flatMap (fun sec => sec.sectionItems.map (·.sectionItemId))),
      (initializeStudentProgress s cd).1.itemProgress stu id cd.courseInstanceId =
        some (if id = it0.sectionItemId then ProgressEnum.IN_PROGRESS
          else ProgressEnum.INCOMPLETE)) ∧
    (∀ id ∈ (extractAllIds cd).2.modules.flatMap (fun m => m.sections.map (·.sectionId)),
      (initializeStudentProgress s cd).1.sectionProgress stu id cd.courseInstanceId =
        some (if id = sec0.sectionId then ProgressEnum.IN_PROGRESS
          else ProgressEnum.INCOMPLETE)) ∧
    (∀ id ∈ (extractAllIds cd).2.modules.map (·.moduleId),
      (initializeStudentProgress s cd).1.moduleProgress stu id cd.courseInstanceId =
        some (if id = m0.moduleId then ProgressEnum.IN_PROGRESS
          else ProgressEnum.INCOMPLETE)) ∧
    ((initializeStudentProgress s cd).1.courseProgress stu cd.courseInstanceId =
      some ProgressEnum.IN_PROGRESS) ∧
    ((initializeStudentProgress s cd).1.totalProgress stu cd.courseInstanceId =
      some 0) := by
  have hfold := initStudents_fold_fresh s cd.courseInstanceId
    (extractAllIds cd).2.modules (getNextData (extractAllIds cd).2) stu
    cd.studentIds s 0 hstu hfM hfS hfI hfC
  have hfw := firstWin_rows_fresh s stu cd.courseInstanceId m0 mrest sec0 srest it0 irest
    hsec hit hfM
  have hstore : (initializeStudentProgress s cd).1 =
      (cd.studentIds.foldl (initStudent s cd.courseInstanceId
        (extractAllIds cd).2.modules (getNextData (extractAllIds cd).2)) (s, 0)).1 := rfl
  refine ⟨?_, ?_, ?_, ?_, ?_⟩
  · intro id hid
    rw [hstore, hfold.2.2.1 id, hmods]
    rw [hmods] at hid
    exact hfw.2.2 id hid
  · intro id hid
    rw [hstore, hfold.2.1 id, hmods]
    rw [hmods] at hid
    exact hfw.2.1 id hid
  · intro id hid
    rw [hstore, hfold.1 id, hmods]
    rw [hmods] at hid
    exact hfw.1 id hid
  · rw [hstore]
    exact hfold.2.2.2.1
  · rw [hstore]
    exact hfold.2.2.2.2

/-- Curriculum for the C3 witness: two modules already in sequence order,
first module with one section holding two items, second with one section. -/
def c3aData : CourseProgressData :=
  { courseInstanceId := "c", studentIds := ["stu"],
    modules :=
      [ ⟨"m1", 1, [⟨"s1", 1, [⟨"i1", 1⟩, ⟨"i2", 2⟩]⟩]⟩,
        ⟨"m2", 2, [⟨"s2", 1, [⟨"i3", 1⟩]⟩]⟩ ] }

/-- Witness for the amended C3 on `c3aData` and the empty store: the leaf
`i1` is IN_PROGRESS, the non-leaf `i3` INCOMPLETE, the course row IN_PROGRESS
and the aggregate 0. -/
theorem initialize_fresh_store_witness :
    ((initializeStudentProgress emptyStore c3aData).1.itemProgress "stu" "i1" "c" =
      some (if "i1" = "i1" then ProgressEnum.IN_PROGRESS else ProgressEnum.INCOMPLETE)) ∧
    ((initializeStudentProgress emptyStore c3aData).1.itemProgress "stu" "i3" "c" =
      some (if "i3" = "i1" then ProgressEnum.IN_PROGRESS else ProgressEnum.INCOMPLETE)) ∧
    ((initializeStudentProgress emptyStore c3aData).1.courseProgress "stu" "c" =
      some ProgressEnum.IN_PROGRESS) ∧
    ((initializeStudentProgress emptyStore c3aData).1.totalProgress "stu" "c" = some 0) :=
  have h := initialize_fresh_store emptyStore c3aData "stu"
    ⟨"m1", 1, [⟨"s1", 1, [⟨"i1", 1⟩, ⟨"i2", 2⟩]⟩]⟩
    [⟨"m2", 2, [⟨"s2", 1, [⟨"i3", 1⟩]⟩]⟩]
    ⟨"s1", 1, [⟨"i1", 1⟩, ⟨"i2", 2⟩]⟩ []
    ⟨"i1", 1⟩ [⟨"i2", 2⟩]
    (by decide) (by decide) rfl rfl
    (fun _ => rfl) (fun _ => rfl) (fun _ => rfl) rfl
  ⟨h.1 "i1" (by decide), h.1 "i3" (by decide), h.2.2.2.1, h.2.2.2.2⟩

theorem firstWin_isSome_of_mem (rows : List (String × ProgressEnum)) (id : String)
    (h : id ∈ rows.map (·.1)) : ∃ p, firstWin rows id = some p := by
  induction rows with
  | nil => simp at h
  | cons r rest ih =>
    obtain ⟨k, p⟩ := r
    by_cases hk : id = k
    · subst hk
      exact ⟨p, firstWin_cons_self id p rest⟩
    · rw [firstWin_cons_ne k id p rest hk]
      refine ih ?_
      simp only [List.map_cons, List.mem_cons] at h
      exact h.resolve_left hk

/-- One student's queued operations never erase or change an existing progress
value: course/module/section/item rows keep their exact stored value
(create-if-absent and skip-duplicates never overwrite). -/
theorem initStudent_preserves_some (s0 : Store) (ci : String) (mods : List Module)
    (nd : NextData) (S : Store) (t : Nat) (stu : String) :
    (∀ a b (v : ProgressEnum), S.courseProgress a b = some v →
      (initStudent s0 ci mods nd (S, t) stu).1.courseProgress a b = some v) ∧
    (∀ a b c (v : ProgressEnum), S.moduleProgress a b c = some v →
      (initStudent s0 ci mods nd (S, t) stu).1.moduleProgress a b c = some v) ∧
    (∀ a b c (v : ProgressEnum), S.sectionProgress a b c = some v →
      (initStudent s0 ci mods nd (S, t) stu).1.sectionProgress a b c = some v) ∧
    (∀ a b c (v : ProgressEnum), S.itemProgress a b c = some v →
      (initStudent s0 ci mods nd (S, t) stu).1.itemProgress a b c = some v) := by
  refine ⟨?_, ?_, ?_, ?_⟩
  · intro a b v hv
    simp only [initStudent_course]
    cases hc : S.courseProgress stu ci
    · simp only [hc]
      by_cases hab : a = stu ∧ b = ci
      · rw [hab.1, hab.2] at hv
        rw [hv] at hc
        exact Option.noConfusion hc
      · rw [if_neg hab]
        exact hv
    · simp only [hc]
      exact hv
  · intro a b c v hv
    rw [initStudent_module]
    by_cases habc : a = stu ∧ c = ci
    · rw [if_pos habc, ← habc.1, ← habc.2, hv]
    · rw [if_neg habc]
      exact hv
  · intro a b c v hv
    rw [initStudent_section]
    by_cases habc : a = stu ∧ c = ci
    · rw [if_pos habc, ← habc.1, ← habc.2, hv]
    · rw [if_neg habc]
      exact hv
  · intro a b c v hv
    rw [initStudent_item]
    by_cases habc : a = stu ∧ c = ci
    · rw [if_pos habc, ← habc.1, ← habc.2, hv]
    · rw [if_neg habc]
      exact hv

/-- Fold version of `initStudent_preserves_some`. -/
theorem initStudents_fold_preserves_some (s0 : Store) (ci : String) (mods : List Module)
    (nd : NextData) :
    ∀ (L : List String) (S : Store) (t : Nat),
    (∀ a b (v : ProgressEnum), S.courseProgress a b = some v →
      (L.foldl (initStudent s0 ci mods nd) (S, t)).1.courseProgress a b = some v) ∧
    (∀ a b c (v : ProgressEnum), S.moduleProgress a b c = some v →
      (L.foldl (initStudent s0 ci mods nd) (S, t)).1.moduleProgress a b c = some v) ∧
    (∀ a b c (v : ProgressEnum), S.sectionProgress a b c = some v →
      (L.foldl (initStudent s0 ci mods nd) (S, t)).1.sectionProgress a b c = some v) ∧
    (∀ a b c (v : ProgressEnum), S.itemProgress a b c = some v →
      (L.foldl (initStudent s0 ci mods nd) (S, t)).1.itemProgress a b c = some v) := by
  intro L
  induction L with
  | nil => exact fun S t => ⟨fun a b v hv => hv, fun a b c v hv => hv,
      fun a b c v hv => hv, fun a b c v hv => hv⟩
  | cons st' rest ih =>
    intro S t
    rw [List.foldl_cons,
      show initStudent s0 ci mods nd (S, t) st' =
        ((initStudent s0 ci mods nd (S, t) st').1,
         (initStudent s0 ci mods nd (S, t) st').2) from rfl]
    have hstep := initStudent_preserves_some s0 ci mods nd S t st'
    have hrest := ih (initStudent s0 ci mods nd (S, t) st').1
      (initStudent s0 ci mods nd (S, t) st').2
    exact ⟨fun a b v hv => hrest.1 a b v (hstep.1 a b v hv),
      fun a b c v hv => hrest.2.1 a b c v (hstep.2.1 a b c v hv),
      fun a b c v hv => hrest.2.2.1 a b c v (hstep.2.2.1 a b c v hv),
      fun a b c v hv => hrest.2.2.2 a b c v (hstep.2.2.2 a b c v hv)⟩

/-- After the fold reaches a listed student, every prepared progress key for
that student holds SOME value (whatever it is), and the course row exists. -/
theorem initStudents_fold_present (s0 : Store) (ci : String) (mods : List Module)
    (nd : NextData) :
    ∀ (L : List String) (S : Store) (t : Nat) (stu : String), stu ∈ L →
    (∀ id ∈ mods.map (·.moduleId), ∃ v,
      (L.foldl (initStudent s0 ci mods nd) (S, t)).1.moduleProgress stu id ci = some v) ∧
    (∀ id ∈ mods.flatMap (fun m => m.sections.map (·.sectionId)), ∃ v,
      (L.foldl (initStudent s0 ci mods nd) (S, t)).1.sectionProgress stu id ci = some v) ∧
    (∀ id ∈ mods.flatMap
        (fun m => m.sections.flatMap (fun sec => sec.sectionItems.map (·.sectionItemId))),
      ∃ v, (L.foldl (initStudent s0 ci mods nd) (S, t)).1.itemProgress stu id ci = some v) ∧
    (∃ v, (L.foldl (initStudent s0 ci mods nd) (S, t)).1.courseProgress stu ci = some v) := by
  intro L
  induction L with
  | nil => intro S t stu hmem; simp at hmem
  | cons st' rest ih =>
    intro S t stu hmem
    rw [List.foldl_cons,
      show initStudent s0 ci mods nd (S, t) st' =
        ((initStudent s0 ci mods nd (S, t) st').1,
         (initStudent s0 ci mods nd (S, t) st').2) from rfl]
    by_cases hstu : stu = st'
    · subst hstu
      have hrest := initStudents_fold_preserves_some s0 ci mods nd rest
        (initStudent s0 ci mods nd (S, t) stu).1 (initStudent s0 ci mods nd (S, t) stu).2
      have hkeysM := (moduleRowsOf_keys s0 stu ci true mods).1
      have hkeysS := (moduleRowsOf_keys s0 stu ci true mods).2.1
      have hkeysI := (moduleRowsOf_keys s0 stu ci true mods).2.2
      refine ⟨?_, ?_, ?_, ?_⟩
      · intro id hid
        have hstepv : ∃ v,
            (initStudent s0 ci mods nd (S, t) stu).1.moduleProgress stu id ci = some v := by
          rw [initStudent_module, if_pos ⟨rfl, rfl⟩]
          cases hv : S.moduleProgress stu id ci
          · exact firstWin_isSome_of_mem _ id (hkeysM ▸ hid)
          · exact ⟨_, rfl⟩
        obtain ⟨v, hv⟩ := hstepv
        exact ⟨v, hrest.2.1 stu id ci v hv⟩
      · intro id hid
        have hstepv : ∃ v,
            (initStudent s0 ci mods nd (S, t) stu).1.sectionProgress stu id ci = some v := by
          rw [initStudent_section, if_pos ⟨rfl, rfl⟩]
          cases hv : S.sectionProgress stu id ci
          · exact firstWin_isSome_of_mem _ id (hkeysS ▸ hid)
          · exact ⟨_, rfl⟩
        obtain ⟨v, hv⟩ := hstepv
        exact ⟨v, hrest.2.2.1 stu id ci v hv⟩
      · intro id hid
        have hstepv : ∃ v,
            (initStudent s0 ci mods nd (S, t) stu).1.itemProgress stu id ci = some v := by
          rw [initStudent_item, if_pos ⟨rfl, rfl⟩]
          cases hv : S.itemProgress stu id ci
          · exact firstWin_isSome_of_mem _ id (hkeysI ▸ hid)
          · exact ⟨_, rfl⟩
        obtain ⟨v, hv⟩ := hstepv
        exact ⟨v, hrest.2.2.2 stu id ci v hv⟩
      · have hstepv : ∃ v,
            (initStudent s0 ci mods nd (S, t) stu).1.courseProgress stu ci = some v := by
          simp only [initStudent_course]
          cases hc : S.courseProgress stu ci
          · simp only [hc]
            refine ⟨ProgressEnum.IN_PROGRESS, ?_⟩
            simp
          · simp only [hc]
            exact ⟨_, rfl⟩
        obtain ⟨v, hv⟩ := hstepv
        exact ⟨v, hrest.1 stu ci v hv⟩
    · have hmem' : stu ∈ rest := (List.mem_cons.mp hmem).resolve_left hstu
      exact ih _ _ stu hmem'

/-- After the fold reaches a listed student, that student's aggregate is 0. -/
theorem initStudents_fold_total_zero (s0 : Store) (ci : String) (mods : List Module)
    (nd : NextData) :
    ∀ (L : List String) (S : Store) (t : Nat) (stu : String),
      stu ∈ L ∨ S.totalProgress stu ci = some 0 →
      (L.foldl (initStudent s0 ci mods nd) (S, t)).1.totalProgress stu ci = some 0 := by
  intro L
  induction L with
  | nil =>
    intro S t stu h
    rcases h with h | h
    · simp at h
    · exact h
  | cons st' rest ih =>
    intro S t stu h
    rw [List.foldl_cons,
      show initStudent s0 ci mods nd (S, t) st' =
        ((initStudent s0 ci mods nd (S, t) st').1,
         (initStudent s0 ci mods nd (S, t) st').2) from rfl]
    by_cases hstu : stu = st'
    · subst hstu
      refine ih _ _ stu (Or.inr ?_)
      simp [initStudent_total]
    · rcases h with h | h
      · exact ih _ _ stu (Or.inl ((List.mem_cons.mp h).resolve_left hstu))
      · refine ih _ _ stu (Or.inr ?_)
        simp only [initStudent_total]
        rw [if_neg (fun hc => hstu hc.1)]
        exact h

/-- When every prepared progress key of every listed student already holds a
value, the fold changes none of the four progress tables: inserts all skip and
the course upsert's update is empty. -/
theorem initStudents_fold_id (s0 : Store) (ci : String) (mods : List Module)
    (nd : NextData) :
    ∀ (L : List String) (S : Store) (t : Nat),
      (∀ stu ∈ L, ∀ id ∈ mods.map (·.moduleId), S.moduleProgress stu id ci ≠ none) →
      (∀ stu ∈ L, ∀ id ∈ mods.flatMap (fun m => m.sections.map (·.sectionId)),
        S.sectionProgress stu id ci ≠ none) →
      (∀ stu ∈ L, ∀ id ∈ mods.flatMap
          (fun m => m.sections.flatMap (fun sec => sec.sectionItems.map (·.sectionItemId))),
        S.itemProgress stu id ci ≠ none) →
      (∀ stu ∈ L, S.courseProgress stu ci ≠ none) →
      (L.foldl (initStudent s0 ci mods nd) (S, t)).1.courseProgress = S.courseProgress ∧
      (L.foldl (initStudent s0 ci mods nd) (S, t)).1.moduleProgress = S.moduleProgress ∧
      (L.foldl (initStudent s0 ci mods nd) (S, t)).1.sectionProgress = S.sectionProgress ∧
      (L.foldl (initStudent s0 ci mods nd) (S, t)).1.itemProgress = S.itemProgress := by
  intro L
  induction L with
  | nil => exact fun S t _ _ _ _ => ⟨rfl, rfl, rfl, rfl⟩
  | cons st' rest ih =>
    intro S t hM hS hI hC
    have hkeysM := (moduleRowsOf_keys s0 st' ci true mods).1
    have hkeysS := (moduleRowsOf_keys s0 st' ci true mods).2.1
    have hkeysI := (moduleRowsOf_keys s0 st' ci true mods).2.2
    have hstepC : (initStudent s0 ci mods nd (S, t) st').1.courseProgress =
        S.courseProgress := by
      simp only [initStudent_course]
      cases hc : S.courseProgress st' ci
      · exact absurd hc (hC st' (by simp))
      · rfl
    have hstepM : (initStudent s0 ci mods nd (S, t) st').1.moduleProgress =
        S.moduleProgress := by
      funext a b c
      rw [initStudent_module]
      by_cases habc : a = st' ∧ c = ci
      · rw [if_pos habc]
        cases hv : S.moduleProgress st' b ci
        · have hb : b ∉ mods.map (·.moduleId) :=
            fun hmem => (hM st' (by simp) b hmem) hv
          rw [firstWin_none_of_not_mem _ b (hkeysM ▸ hb), habc.1, habc.2, hv]
        · rw [habc.1, habc.2, hv]
      · rw [if_neg habc]
    have hstepS : (initStudent s0 ci mods nd (S, t) st').1.sectionProgress =
        S.sectionProgress := by
      funext a b c
      rw [initStudent_section]
      by_cases habc : a = st' ∧ c = ci
      · rw [if_pos habc]
        cases hv : S.sectionProgress st' b ci
        · have hb : b ∉ mods.flatMap (fun m => m.sections.map (·.sectionId)) :=
            fun hmem => (hS st' (by simp) b hmem) hv
          rw [firstWin_none_of_not_mem _ b (hkeysS ▸ hb), habc.1, habc.2, hv]
        · rw [habc.1, habc.2, hv]
      · rw [if_neg habc]
    have hstepI : (initStudent s0 ci mods nd (S, t) st').1.itemProgress =
        S.itemProgress := by
      funext a b c
      rw [initStudent_item]
      by_cases habc : a = st' ∧ c = ci
      · rw [if_pos habc]
        cases hv : S.itemProgress st' b ci
        · have hb : b ∉ mods.flatMap
              (fun m => m.sections.flatMap
                (fun sec => sec.sectionItems.map (·.sectionItemId))) :=
            fun hmem => (hI st' (by simp) b hmem) hv
          rw [firstWin_none_of_not_mem _ b (hkeysI ▸ hb), habc.1, habc.2, hv]
        · rw [habc.1, habc.2, hv]
      · rw [if_neg habc]
    rw [List.foldl_cons,
      show initStudent s0 ci mods nd (S, t) st' =
        ((initStudent s0 ci mods nd (S, t) st').1,
         (initStudent s0 ci mods nd (S, t) st').2) from rfl]
    have hres := ih (initStudent s0 ci mods nd (S, t) st').1
      (initStudent s0 ci mods nd (S, t) st').2
      (fun stu hstu id hid => by
        rw [hstepM]
        exact hM stu (by simp [hstu]) id hid)
      (fun stu hstu id hid => by
        rw [hstepS]
        exact hS stu (by simp [hstu]) id hid)
      (fun stu hstu id hid => by
        rw [hstepI]
        exact hI stu (by simp [hstu]) id hid)
      (fun stu hstu => by
        rw [hstepC]
        exact hC stu (by simp [hstu]))
    exact ⟨hres.1.trans hstepC, hres.2.1.trans hstepM,
      hres.2.2.1.trans hstepS, hres.2.2.2.trans hstepI⟩

/-- CLAIM C6.  Running `initializeStudentProgress` a second time over the
store the first run produced changes no module/section/item progress row and
no course-row status (skip-duplicates inserts and the empty course-row update
make the second run a no-op on progress rows), while TotalProgress is always
reset to 0 for every listed student; and the course-row upsert never
overwrites an existing status even on the first run. -/
theorem initialize_idempotent (s : Store) (cd : CourseProgressData) :
    ((initializeStudentProgress (initializeStudentProgress s cd).1 cd).1.moduleProgress =
      (initializeStudentProgress s cd).1.moduleProgress) ∧
    ((initializeStudentProgress (initializeStudentProgress s cd).1 cd).1.sectionProgress =
      (initializeStudentProgress s cd).1.sectionProgress) ∧
    ((initializeStudentProgress (initializeStudentProgress s cd).1 cd).1.itemProgress =
      (initializeStudentProgress s cd).1.itemProgress) ∧
    ((initializeStudentProgress (initializeStudentProgress s cd).1 cd).1.courseProgress =
      (initializeStudentProgress s cd).1.courseProgress) ∧
    (∀ stu ∈ cd.studentIds,
      (initializeStudentProgress (initializeStudentProgress s cd).1 cd).1.totalProgress
        stu cd.courseInstanceId = some 0) ∧
    (∀ stu (p : ProgressEnum), s.courseProgress stu cd.courseInstanceId = some p →
      (initializeStudentProgress s cd).1.courseProgress stu cd.courseInstanceId = some p) := by
  set ci := cd.courseInstanceId with hci
  set mods := (extractAllIds cd).2.modules with hmods
  set nd := getNextData (extractAllIds cd).2 with hnd
  have hs1 : (initializeStudentProgress s cd).1 =
      (cd.studentIds.foldl (initStudent s ci mods nd) (s, 0)).1 := rfl
  have hs2 : (initializeStudentProgress (initializeStudentProgress s cd).1 cd).1 =
      (cd.studentIds.foldl
        (initStudent (initializeStudentProgress s cd).1 ci mods nd)
        ((initializeStudentProgress s cd).1, 0)).1 := rfl
  have hpres := fun stu (hstu : stu ∈ cd.studentIds) =>
    initStudents_fold_present s ci mods nd cd.studentIds s 0 stu hstu
  have hid := initStudents_fold_id (initializeStudentProgress s cd).1 ci mods nd
    cd.studentIds (initializeStudentProgress s cd).1 0
    (fun stu hstu id hmem => by
      rw [hs1]
      obtain ⟨v, hv⟩ := (hpres stu hstu).1 id hmem
      rw [hv]
      exact fun h => Option.noConfusion h)
    (fun stu hstu id hmem => by
      rw [hs1]
      obtain ⟨v, hv⟩ := (hpres stu hstu).2.1 id hmem
      rw [hv]
      exact fun h => Option.noConfusion h)
    (fun stu hstu id hmem => by
      rw [hs1]
      obtain ⟨v, hv⟩ := (hpres stu hstu).2.2.1 id hmem
      rw [hv]
      exact fun h => Option.noConfusion h)
    (fun stu hstu => by
      rw [hs1]
      obtain ⟨v, hv⟩ := (hpres stu hstu).2.2.2
      rw [hv]
      exact fun h => Option.noConfusion h)
  refine ⟨?_, ?_, ?_, ?_, ?_, ?_⟩
  · rw [hs2]
    exact hid.2.1
  · rw [hs2]
    exact hid.2.2.1
  · rw [hs2]
    exact hid.2.2.2
  · rw [hs2]
    exact hid.1
  · intro stu hstu
    rw [hs2]
    exact initStudents_fold_total_zero (initializeStudentProgress s cd).1 ci mods nd
      cd.studentIds (initializeStudentProgress s cd).1 0 stu (Or.inl hstu)
  · intro stu p hp
    rw [hs1]
    exact (initStudents_fold_preserves_some s ci mods nd cd.studentIds s 0).1
      stu ci p hp

/-- Witness for C6 on `c3aData` and the empty store: a re-run leaves the leaf
item's row exactly as the first run wrote it and the aggregate at 0, and a
pre-existing COMPLETE course row survives the initializer. -/
theorem initialize_idempotent_witness :
    ((initializeStudentProgress (initializeStudentProgress emptyStore c3aData).1
        c3aData).1.itemProgress =
      (initializeStudentProgress emptyStore c3aData).1.itemProgress) ∧
    ((initializeStudentProgress (initializeStudentProgress emptyStore c3aData).1
        c3aData).1.totalProgress "stu" "c" = some 0) ∧
    ((initializeStudentProgress
        (markCourse emptyStore "stu" "c" ProgressEnum.COMPLETE)
        c3aData).1.courseProgress "stu" "c" = some ProgressEnum.COMPLETE) :=
  ⟨(initialize_idempotent emptyStore c3aData).2.2.1,
   (initialize_idempotent emptyStore c3aData).2.2.2.2.1 "stu" (by decide),
   (initialize_idempotent (markCourse emptyStore "stu" "c" ProgressEnum.COMPLETE)
      c3aData).2.2.2.2.2 "stu" ProgressEnum.COMPLETE (by decide)⟩

end ActivityEngine
